import Mathlib

/-!
Shallow embedding of the field-extraction core of `src/parser.py`
(`_norm_text`, `_clean_money`, the pattern tables `_DATE_PATTERNS`,
`_INVOICE_PATTERNS`, `_TOTAL_PATTERNS`, `_GST_LINE_PATTERNS`, `_GSTIN_RE`,
and `extract_fields`), together with theorems settling the frozen claims.

Conventions of the embedding:
* Python strings are Lean `String`s; pattern matching works on `List Char`
  with natural-number positions.
* Python `re` patterns are translated, construct by construct, into the
  `RE` syntax below; the matcher `RE.mall` returns every match of a pattern
  at a position, in exactly the backtracking preference order of CPython's
  `re` engine (alternation left first, greedy quantifiers longest first),
  so that `List.head?` of it is the match Python reports.
* CPython floats produced by the money pipeline are modelled by `PyF`:
  exact rationals for in-range values (rounding of in-range decimal
  literals to binary is not modelled: no claim depends on it), and the
  infinities produced/raised at the IEEE-double overflow threshold.
* `\d`, `\w`, `\s`, `str.strip`, `str.splitlines` are modelled over the
  character sets given below (ASCII plus the common Unicode whitespace);
  all inputs appearing in the claims are within this fragment.
-/

set_option maxRecDepth 20000
set_option exponentiation.threshold 2000

namespace InvoiceMVP

/-- Model of a CPython float as produced by the money pipeline of
`parser.py`.  In-range values are kept as exact rationals; values at or
beyond the IEEE-double overflow threshold appear as the infinities
(CPython's `float(s)` returns `inf` for an overflowing decimal string,
while `float(int(s))` raises `OverflowError`). NaN is unreachable in this
pipeline and has no constructor. -/
inductive PyF where
  | fin (q : ℚ)
  | pinf
  | ninf
deriving DecidableEq, Repr

/-- Decimal values `v` with `v ≥ 2^1024 - 2^970` round (ties-to-even) to
IEEE-double infinity; this is the exact overflow threshold used by
CPython's string-to-float and int-to-float conversions. (Stated via `ℕ`
arithmetic so that it evaluates in the kernel.) -/
def dblOvf : ℚ := ((2 ^ 1024 - 2 ^ 970 : ℕ) : ℚ)

/-- Exact rational addition, written with `mkRat` so that it evaluates in
the kernel (`Rat.add` is `@[irreducible]`); `pyRatAdd_eq_add` below shows
it is ordinary addition. -/
def pyRatAdd (a b : ℚ) : ℚ :=
  mkRat (a.num * b.den + b.num * a.den) (a.den * b.den)

/-- CPython `float(decimal-string)` applied to an exact rational value:
overflow returns an infinity (it does not raise). -/
def PyF.ofRat (q : ℚ) : PyF :=
  if dblOvf ≤ q then .pinf else if q ≤ -dblOvf then .ninf else .fin q

/-- CPython `float(int)`: raises `OverflowError` (here: `none`) when the
integer is at or beyond the double overflow threshold. -/
def pyFloatOfIntVal (q : ℚ) : Option PyF :=
  if dblOvf ≤ q ∨ q ≤ -dblOvf then none else some (.fin q)

/-- CPython `+` on floats, restricted to the values reachable in this
pipeline (no `nan`; `ninf` never reaches a sum). Finite addition is kept
exact over ℚ. -/
def PyF.add : PyF → PyF → PyF
  | .fin a, .fin b => .fin (pyRatAdd a b)
  | .pinf, _ => .pinf
  | _, .pinf => .pinf
  | .ninf, _ => .ninf
  | _, .ninf => .ninf

/-- CPython `<` on floats (no NaN present). -/
def PyF.ltb : PyF → PyF → Bool
  | .fin a, .fin b => decide (a < b)
  | .fin _, .pinf => true
  | .ninf, .fin _ => true
  | .ninf, .pinf => true
  | _, _ => false

/-- CPython `<=` on floats (no NaN present). -/
def PyF.leb : PyF → PyF → Bool
  | .fin a, .fin b => decide (a ≤ b)
  | .fin _, .pinf => true
  | .ninf, _ => true
  | .pinf, .pinf => true
  | _, _ => false

/-- `0 <= v` in the float model (`pinf` counts as nonnegative). -/
def PyF.nonneg : PyF → Bool
  | .fin q => decide (0 ≤ q)
  | .pinf => true
  | .ninf => false

/-- Python `sum` over a float list (starts from the int 0, which is
promoted to a float by the first addition). -/
def pySum (l : List PyF) : PyF := l.foldl PyF.add (.fin 0)

/-! ### Python character sets and string helpers -/

/-- The characters Python's `str.isspace` / `re` `\\s` recognise (ASCII
whitespace, the C1 separators, and the common Unicode spaces). -/
def pySpace (c : Char) : Bool :=
  (0x09 <= c.toNat && c.toNat <= 0x0d) || c == ' ' ||
  (0x1c <= c.toNat && c.toNat <= 0x1f) ||
  c.toNat == 0x85 || c.toNat == 0xa0 || c.toNat == 0x1680 ||
  (0x2000 <= c.toNat && c.toNat <= 0x200a) ||
  c.toNat == 0x2028 || c.toNat == 0x2029 || c.toNat == 0x202f ||
  c.toNat == 0x205f || c.toNat == 0x3000

/-- Line terminators recognised by Python's `str.splitlines` (besides the
pair `\\r\\n`; no `\\r` survives `_norm_text`, which replaced each one). -/
def pyLineBreak (c : Char) : Bool :=
  c == '\n' || c == '\r' || c.toNat == 0x0b || c.toNat == 0x0c ||
  (0x1c <= c.toNat && c.toNat <= 0x1e) || c.toNat == 0x85 ||
  c.toNat == 0x2028 || c.toNat == 0x2029

/-- ASCII word characters, for `re` `\\b` (and `\\w`). -/
def pyWordChar (c : Char) : Bool := c.isAlphanum || c == '_' 

/-- Python `str.replace(pat, rep)`: leftmost, non-overlapping, the
replacement text is not rescanned. (`pat` is nonempty at every call
site.) The fuel argument only bounds the recursion; each step consumes
at least one character, so `l.length` fuel is exact. -/
def replFuel (pat rep : List Char) : Nat → List Char → List Char
  | 0, l => l
  | _ + 1, [] => []
  | fuel + 1, c :: rest =>
    if pat ≠ [] ∧ pat.isPrefixOf (c :: rest) then
      rep ++ replFuel pat rep fuel ((c :: rest).drop pat.length)
    else
      c :: replFuel pat rep fuel rest

def replL (pat rep l : List Char) : List Char := replFuel pat rep l.length l

def pyReplace (s pat rep : String) : String :=
  ⟨replL pat.toList rep.toList s.toList⟩

/-- Python `str.strip(chars)` (two-sided trim of characters satisfying
`p`). -/
def pyStripP (p : Char → Bool) (s : String) : String :=
  ⟨((s.toList.dropWhile p).reverse.dropWhile p).reverse⟩

/-- Python `str.strip()` (whitespace trim). -/
def pyStrip (s : String) : String := pyStripP pySpace s

/-- Python `str.upper()`, on the ASCII fragment (per-character upper
casing; no character of the modelled inputs expands under full
Unicode uppercasing). -/
def pyUpper (s : String) : String := ⟨s.toList.map Char.toUpper⟩

/-- Python `str.title()`: a cased (here: alphabetic) character is
uppercased when the previous character is not cased, lowercased
otherwise. -/
def pyTitleL : Bool → List Char → List Char
  | _, [] => []
  | prevAlpha, c :: rest =>
    (if c.isAlpha then (if prevAlpha then c.toLower else c.toUpper) else c)
      :: pyTitleL c.isAlpha rest

def pyTitle (s : String) : String := ⟨pyTitleL false s.toList⟩

/-- Python `str.splitlines()`: segments between line terminators; a
trailing terminator produces no extra empty line. -/
def splitLinesAux (cur : List Char) : List Char → List String
  | [] => if cur = [] then [] else [⟨cur.reverse⟩]
  | c :: rest =>
    if pyLineBreak c then ⟨cur.reverse⟩ :: splitLinesAux [] rest
    else splitLinesAux (c :: cur) rest

def pySplitLines (s : String) : List String := splitLinesAux [] s.toList

/-! ### A small backtracking regex engine

`RE` is the abstract syntax of exactly the constructs the patterns of
`parser.py` use. `RE.mall t r i g` returns every way `r` can match in `t`
starting at position `i`, as `(end-position, groups)` pairs, listed in
CPython's backtracking preference order: alternation tries the left arm
first, `opt`/bounded repetition/`clsStar` prefer consuming more. The
head of the list is therefore the match Python's `re` reports at `i`. -/

/-- Captured span: start and end position in the subject text. -/
abbrev Span := Nat × Nat

/-- The capture groups of the patterns of `parser.py` (they have at most
two groups, never repeated, no backreferences). -/
structure RGroups where
  g1 : Option Span
  g2 : Option Span
deriving DecidableEq, Repr

def RGroups.empty : RGroups := ⟨none, none⟩

def RGroups.set (g : RGroups) (k : Nat) (sp : Span) : RGroups :=
  if k = 1 then { g with g1 := some sp }
  else if k = 2 then { g with g2 := some sp }
  else g

def RGroups.get (k : Nat) (g : RGroups) : Option Span :=
  if k = 1 then g.g1 else if k = 2 then g.g2 else none

inductive RE where
  /-- empty pattern -/
  | eps
  /-- a literal character sequence -/
  | str (cs : List Char)
  /-- a character class, one character -/
  | cls (p : Char → Bool)
  /-- greedy Kleene star over a character class -/
  | clsStar (p : Char → Bool)
  | seq (a b : RE)
  /-- alternation, left arm preferred -/
  | alt (a b : RE)
  /-- greedy `?` -/
  | opt (a : RE)
  /-- capture group `k` (1 or 2) -/
  | grp (k : Nat) (a : RE)
  /-- word boundary `\b` -/
  | wb
  /-- `$` under `re.M`: end of text or just before a newline -/
  | eolM

/-- Length of the run of characters satisfying `p` starting at `i`. -/
def runLen (t : List Char) (p : Char → Bool) (i : Nat) : Nat :=
  ((t.drop i).takeWhile p).length

/-- `\b`: the two sides of position `i` disagree on word-char-ness. -/
def isWB (t : List Char) (i : Nat) : Bool :=
  let b := match i with
    | 0 => false
    | j + 1 => ((t.get? j).map pyWordChar).getD false
  let a := ((t.get? i).map pyWordChar).getD false
  b != a

/-- All matches of `r` at position `i` of `t`, in backtracking preference
order. -/
def RE.mall (t : List Char) : RE → Nat → RGroups → List (Nat × RGroups)
  | .eps, i, g => [(i, g)]
  | .str cs, i, g => if cs.isPrefixOf (t.drop i) then [(i + cs.length, g)] else []
  | .cls p, i, g =>
    match t.get? i with
    | some c => if p c then [(i + 1, g)] else []
    | none => []
  | .clsStar p, i, g =>
    ((List.range (runLen t p i + 1)).reverse).map (fun k => (i + k, g))
  | .seq a b, i, g => (RE.mall t a i g).flatMap (fun x => RE.mall t b x.1 x.2)
  | .alt a b, i, g => RE.mall t a i g ++ RE.mall t b i g
  | .opt a, i, g => RE.mall t a i g ++ [(i, g)]
  | .grp k a, i, g => (RE.mall t a i g).map (fun x => (x.1, x.2.set k (i, x.1)))
  | .wb, i, g => if isWB t i then [(i, g)] else []
  | .eolM, i, g => if i = t.length || t.get? i == some '\n' then [(i, g)] else []

/-- `re.search` scanning from position `i`: the leftmost position with a
match, together with Python's preferred match there. Returns
`(start, end, groups)`. The fuel `t.length + 1 - i` covers every
remaining start position exactly. -/
def searchFromAux (t : List Char) (r : RE) : Nat → Nat → Option (Nat × Nat × RGroups)
  | 0, _ => none
  | fuel + 1, i =>
    if i ≤ t.length then
      match (r.mall t i .empty).head? with
      | some x => some (i, x.1, x.2)
      | none => searchFromAux t r fuel (i + 1)
    else none

def searchFrom (t : List Char) (r : RE) (i : Nat) : Option (Nat × Nat × RGroups) :=
  searchFromAux t r (t.length + 1 - i) i

/-- `re.search`. -/
def reSearch (t : List Char) (r : RE) : Option (Nat × Nat × RGroups) :=
  searchFrom t r 0

/-- `re.finditer`: repeated search; after a match the scan resumes at its
end (one past it for an empty match). The fuel `t.length + 2` is enough
because the resume position strictly increases. -/
def finditerAux (t : List Char) (r : RE) : Nat → Nat → List (Nat × Nat × RGroups)
  | 0, _ => []
  | fuel + 1, pos =>
    match searchFrom t r pos with
    | none => []
    | some (s, e, g) =>
      (s, e, g) :: finditerAux t r fuel (if s < e then e else e + 1)

def reFinditer (t : List Char) (r : RE) : List (Nat × Nat × RGroups) :=
  finditerAux t r (t.length + 2) 0

/-- The text of a captured span. -/
def sliceStr (t : List Char) (sp : Span) : String :=
  ⟨(t.drop sp.1).take (sp.2 - sp.1)⟩

/-- `m.group(1)` (empty string when unset; every pattern of `parser.py`
that is consulted for group 1 always sets it on a match). -/
def grp1Str (t : List Char) (g : RGroups) : String := (g.g1.map (sliceStr t)).getD ""

/-- `m.group(2)`, i.e. `m.groups()[-1]` for the two-group patterns. -/
def grp2Str (t : List Char) (g : RGroups) : String := (g.g2.map (sliceStr t)).getD ""

/-- `re.findall` for a single-group pattern: the list of group-1 texts of
the successive non-overlapping matches. -/
def reFindall1 (t : List Char) (r : RE) : List String :=
  (reFinditer t r).map (fun m => grp1Str t m.2.2)

/-- `re.sub` with a literal replacement: splice the replacement over the
non-overlapping match spans. -/
def spliceAux (t : List Char) (rep : List Char) :
    Nat → List (Nat × Nat × RGroups) → List Char
  | pos, [] => t.drop pos
  | pos, (s, e, _) :: rest =>
    (t.drop pos).take (s - pos) ++ rep ++ spliceAux t rep e rest

def pyReSub (r : RE) (rep : String) (s : String) : String :=
  ⟨spliceAux s.toList rep.toList 0 (reFinditer s.toList r)⟩

/-! ### Pattern combinators (translations of the quantifiers used) -/

def rstr (s : String) : RE := .str s.toList

/-- `(x|y|...)` for a nonempty list (the empty case never occurs; it is a
never-matching pattern). -/
def alts : List RE → RE
  | [] => .cls (fun _ => false)
  | [r] => r
  | r :: rs => .alt r (alts rs)

/-- `[p]+` -/
def plusCls (p : Char → Bool) : RE := .seq (.cls p) (.clsStar p)

/-- `[p]{0,n}`, greedy. -/
def repClsAtMost (p : Char → Bool) : Nat → RE
  | 0 => .eps
  | n + 1 => .opt (.seq (.cls p) (repClsAtMost p n))

/-- `[p]{n}` -/
def repClsExact (p : Char → Bool) : Nat → RE
  | 0 => .eps
  | n + 1 => .seq (.cls p) (repClsExact p n)

/-- `[p]{lo,hi}`, greedy. -/
def repCls (p : Char → Bool) (lo hi : Nat) : RE :=
  .seq (repClsExact p lo) (repClsAtMost p (hi - lo))

/-- Right-nested concatenation of a pattern list. -/
def seqs : List RE → RE
  | [] => .eps
  | [r] => r
  | r :: rs => .seq r (seqs rs)

/-! ### Character classes of the patterns

All matching in `extract_fields` happens on the uppercased text, so the
`re.IGNORECASE` flag is reflected by uppercase literals; classes written
`[a-z]` under `IGNORECASE` become "any ASCII letter". -/

def digitCh (c : Char) : Bool := c.isDigit
def slashDash (c : Char) : Bool := c == '/' || c == '-'
/-- `[:\-\s]` -/
def sepCls (c : Char) : Bool := c == ':' || c == '-' || pySpace c
/-- The invoice-token class: ASCII letters, digits, hyphen, slash, dot. -/
def tokCls (c : Char) : Bool := c.isAlphanum || c == '-' || c == '/' || c == '.'
/-- `[0-9,\.\s]` -/
def amtCls1 (c : Char) : Bool := c.isDigit || c == ',' || c == '.' || pySpace c
/-- `[0-9\.,,]` -/
def amtCls2 (c : Char) : Bool := c.isDigit || c == '.' || c == ','
/-- `[0-9,\. ]` (a literal space, not `\s`) -/
def moneyMid (c : Char) : Bool := c.isDigit || c == ',' || c == '.' || c == ' '
/-- `[a-z]` under `IGNORECASE` -/
def letterCls (c : Char) : Bool := c.isAlpha
/-- `[,\s]` -/
def commaSp (c : Char) : Bool := c == ',' || pySpace c
/-- `[^\d]` -/
def nonDigit (c : Char) : Bool := !c.isDigit
/-- `[0-9A-Z]` (= `[A-Z0-9]`) -/
def upAlnum (c : Char) : Bool := c.isDigit || ('A' ≤ c && c ≤ 'Z')
/-- `[lI]` -/
def lICls (c : Char) : Bool := c == 'l' || c == 'I'

/-! ### The pattern tables of `parser.py` -/

/-- `(?:Jan|Feb|Mar|Apr|May|Jun|Jul|Aug|Sep|Sept|Oct|Nov|Dec)`, uppercased
for the uppercased subject text. -/
def monthAlt : RE :=
  alts [rstr "JAN", rstr "FEB", rstr "MAR", rstr "APR", rstr "MAY",
        rstr "JUN", rstr "JUL", rstr "AUG", rstr "SEP", rstr "SEPT",
        rstr "OCT", rstr "NOV", rstr "DEC"]

/-- `_DATE_PATTERNS` -/
def _DATE_PATTERNS : List RE :=
  [ .grp 1 (seqs [repCls digitCh 1 2, .cls slashDash, repCls digitCh 1 2,
                  .cls slashDash, repCls digitCh 2 4]),
    .grp 1 (seqs [repCls digitCh 1 2, plusCls pySpace, monthAlt,
                  .clsStar letterCls, .clsStar commaSp, repCls digitCh 2 4]),
    .grp 1 (seqs [monthAlt, .clsStar letterCls, plusCls pySpace,
                  repCls digitCh 1 2, .opt (rstr ","), plusCls pySpace,
                  repClsExact digitCh 4]),
    .grp 1 (seqs [repClsExact digitCh 4, .cls slashDash, repCls digitCh 1 2,
                  .cls slashDash, repCls digitCh 1 2]) ]

/-- `_INVOICE_PATTERNS[0]`: the labeled invoice-number pattern, every
label element optional. -/
def invPat1 : RE :=
  seqs [rstr "INVOICE", .clsStar pySpace,
        .opt (alts [rstr "NO", rstr "NUMBER", rstr "#", rstr ":"]),
        .clsStar pySpace, .clsStar sepCls, .grp 1 (plusCls tokCls)]

/-- `_INVOICE_PATTERNS[1]` -/
def invPat2 : RE :=
  seqs [rstr "INV", .opt (rstr "."), .clsStar pySpace,
        .opt (alts [rstr "NO", rstr "#"]),
        .clsStar pySpace, .clsStar sepCls, .grp 1 (plusCls tokCls)]

/-- `_INVOICE_PATTERNS[2]` -/
def invPat3 : RE :=
  seqs [rstr "BILL", .clsStar pySpace,
        .opt (alts [rstr "NO", rstr "#"]),
        .clsStar pySpace, .clsStar sepCls, .grp 1 (plusCls tokCls)]

/-- `_INVOICE_PATTERNS[3]`: the bare `invoice` fallback with a 3-30
character token. -/
def invPat4 : RE :=
  seqs [rstr "INVOICE", .clsStar pySpace, .clsStar sepCls,
        .grp 1 (repCls tokCls 3 30)]

/-- `_INVOICE_PATTERNS` -/
def _INVOICE_PATTERNS : List RE := [invPat1, invPat2, invPat3, invPat4]

/-- `_TOTAL_PATTERNS` -/
def _TOTAL_PATTERNS : List RE :=
  [ seqs [.grp 1 (alts [.seq (rstr "GRAND TOTAL") (.opt (rstr " AMOUNT")),
                        rstr "TOTAL AMOUNT AFTER TAX", rstr "TOTAL AMOUNT",
                        rstr "AMOUNT DUE", rstr "TOTAL PAYABLE",
                        rstr "INVOICE TOTAL", rstr "AMOUNT"]),
          .clsStar pySpace, .clsStar sepCls, .opt (rstr "₹"),
          .clsStar pySpace, .grp 2 (plusCls amtCls1)],
    seqs [.grp 1 (rstr "TOTAL"), .clsStar pySpace, .clsStar sepCls,
          .opt (rstr "₹"), .clsStar pySpace, .grp 2 (plusCls amtCls2),
          .eolM] ]

/-- The fallback monetary pattern `₹?\s*([0-9][0-9,\. ]{1,}[0-9])`. -/
def moneyAnyPat : RE :=
  seqs [.opt (rstr "₹"), .clsStar pySpace,
        .grp 1 (seqs [.cls digitCh, plusCls moneyMid, .cls digitCh])]

/-- `_GST_LINE_PATTERNS` -/
def _GST_LINE_PATTERNS : List RE :=
  [ seqs [.grp 1 (seqs [rstr "TOTAL", .clsStar pySpace, rstr "TAX",
                        .clsStar sepCls]),
          .grp 2 (plusCls amtCls1)],
    seqs [.grp 1 (.seq (rstr "TAXABLE AMOUNT") (.clsStar sepCls)),
          .grp 2 (plusCls amtCls1)],
    seqs [.grp 1 (alts [rstr "CGST", rstr "SGST", rstr "IGST"]),
          .clsStar nonDigit, .grp 2 (plusCls amtCls1)] ]

/-- The per-line heading pattern
`\b(TAX INVOICE|TAXINVOICE|INVOICE|INVOICE NO|INVOICE#)\b`. -/
def headingPat : RE :=
  seqs [.wb,
        .grp 1 (alts [rstr "TAX INVOICE", rstr "TAXINVOICE", rstr "INVOICE",
                      rstr "INVOICE NO", rstr "INVOICE#"]),
        .wb]

/-- `_GSTIN_RE = ([0-9A-Z]{2}[A-Z0-9]{10})` — a 12-character uppercase
alphanumeric run ("simple GSTIN-ish capture"). -/
def _GSTIN_RE : RE := .grp 1 (.seq (repClsExact upAlnum 2) (repClsExact upAlnum 10))

/-- `\n\s+\n` of `_norm_text`. -/
def blankLinePat : RE := seqs [rstr "\n", plusCls pySpace, rstr "\n"]

/-- `\b\d+O\d+\b` of `_norm_text` (matched on the raw, case-preserved
text). -/
def ocrOPat : RE :=
  seqs [.wb, plusCls digitCh, .str ['O'], plusCls digitCh, .wb]

/-- `\b[lI]{2,}\b` of `_norm_text`. -/
def ocrLPat : RE :=
  seqs [.wb, .cls lICls, .cls lICls, .clsStar lICls, .wb]

/-! ### `_norm_text` and `_clean_money` -/

/-- `_norm_text` from `parser.py`. -/
def _norm_text (t : String) : String :=
  let t1 := pyReplace t "\r" "\n"
  let t2 := pyReSub blankLinePat "\n" t1
  let t3 := if (reSearch t2.toList ocrOPat).isSome then pyReplace t2 "O" "0" else t2
  if (reSearch t3.toList ocrLPat).isSome then pyReplace t3 "l" "1" else t3

/-- Numeric value of a digit list. -/
def digitsVal (ds : List Char) : ℕ :=
  ds.foldl (fun a c => a * 10 + (c.toNat - 48)) 0

/-- CPython `int(s)` on the strings `_clean_money` can produce (only
digits, `.`, `-` survive its cleaning): optional minus sign then a
nonempty digit run. -/
def pyInt? (l : List Char) : Option ℤ :=
  if l.head? = some '-' then
    if l.tail ≠ [] ∧ l.tail.all Char.isDigit then
      some (-(digitsVal l.tail : ℤ))
    else none
  else
    if l ≠ [] ∧ l.all Char.isDigit then some ((digitsVal l : ℤ)) else none

/-- CPython `float(s)` literal syntax on digits/dot/minus strings:
`[-]? digits [. digits]` with at least one digit; the value is exact. -/
def pyFloatCore (ds : List Char) : Option ℚ :=
  let ip := ds.takeWhile Char.isDigit
  match ds.dropWhile Char.isDigit with
  | [] => if ip ≠ [] then some (digitsVal ip : ℚ) else none
  | '.' :: fp =>
    if fp.all Char.isDigit ∧ (ip ≠ [] ∨ fp ≠ []) then
      some (mkRat (digitsVal ip * 10 ^ fp.length + digitsVal fp : ℕ) (10 ^ fp.length))
    else none
  | _ => none

def pyFloatLit? (l : List Char) : Option ℚ :=
  if l.head? = some '-' then (pyFloatCore l.tail).map Neg.neg
  else pyFloatCore l

/-- The cleaning pipeline of `_clean_money`: strip, remove the currency
markers `₹`, `Rs.`, `Rs`, `INR`, remove commas and spaces, then keep only
digits, dot and minus (the final `re.sub`). -/
def _clean_digits (s : String) : List Char :=
  (pyReplace (pyReplace (pyReplace (pyReplace (pyReplace (pyReplace
    (pyStrip s) "₹" "") "Rs." "") "Rs" "") "INR" "") "," "") " " "").toList.filter
    (fun c => c.isDigit || c == '.' || c == '-')

/-- `_clean_money` from `parser.py`. `none` is Python `None` (including
every exception path); overflowing decimal strings with a dot give an
infinity, overflowing integer strings raise (hence `none`). -/
def _clean_money (s : String) : Option PyF :=
  if s = "" then none
  else if (_clean_digits s).contains '.' then
    (pyFloatLit? (_clean_digits s)).map PyF.ofRat
  else
    (pyInt? (_clean_digits s)).bind (fun n => pyFloatOfIntVal (n : ℚ))

/-! ### Calendar dates and the external date parser -/

/-- A calendar date (no time component, as `datetime.date`). -/
structure PDate where
  y : Nat
  m : Nat
  d : Nat
deriving DecidableEq, Repr

def isLeap (y : Nat) : Bool :=
  y % 4 == 0 && (y % 100 != 0 || y % 400 == 0)

def daysInMonth (y m : Nat) : Nat :=
  if m == 2 then (if isLeap y then 29 else 28)
  else if m == 4 || m == 6 || m == 9 || m == 11 then 30
  else 31

/-- `datetime.date` validity: year 1..9999, real month and day. -/
def validYMD (y m d : Nat) : Bool :=
  1 ≤ y && y ≤ 9999 && 1 ≤ m && m ≤ 12 && 1 ≤ d && d ≤ daysInMonth y m

def mkDate? (y m d : Nat) : Option PDate :=
  if validYMD y m d then some ⟨y, m, d⟩ else none

/-- Lexicographic comparison key (injective for valid dates). -/
def PDate.key (dt : PDate) : Nat := dt.y * 10000 + dt.m * 100 + dt.d

def digitChar (n : Nat) : Char := Char.ofNat (48 + n)

def natDigitsF : Nat → Nat → List Char
  | 0, _ => []
  | fuel + 1, n =>
    if n < 10 then [digitChar n]
    else natDigitsF fuel (n / 10) ++ [digitChar (n % 10)]

def natDigits (n : Nat) : List Char := natDigitsF (n + 1) n

def natStr (n : Nat) : String := ⟨natDigits n⟩

def pad2 (n : Nat) : String := if n < 10 then "0" ++ natStr n else natStr n

def pad4 (n : Nat) : String :=
  if n < 10 then "000" ++ natStr n
  else if n < 100 then "00" ++ natStr n
  else if n < 1000 then "0" ++ natStr n
  else natStr n

/-- `datetime.date.isoformat()`. -/
def PDate.iso (dt : PDate) : String :=
  pad4 dt.y ++ "-" ++ pad2 dt.m ++ "-" ++ pad2 dt.d

/-- Tokens of a date candidate string: digit runs and letter runs
(anything else separates). -/
inductive DTok where
  | num (ds : List Char)
  | word (cs : List Char)
deriving DecidableEq, Repr

def mkDTok (isNum : Bool) (acc : List Char) : DTok :=
  if isNum then .num acc.reverse else .word acc.reverse

def dtTokAux (cur : Option (Bool × List Char)) : List Char → List DTok
  | [] =>
    match cur with
    | none => []
    | some (bn, acc) => [mkDTok bn acc]
  | c :: rest =>
    let k : Option Bool :=
      if c.isDigit then some true else if c.isAlpha then some false else none
    match cur, k with
    | none, none => dtTokAux none rest
    | none, some b => dtTokAux (some (b, [c])) rest
    | some (bn, acc), none => mkDTok bn acc :: dtTokAux none rest
    | some (bn, acc), some b =>
      if bn == b then dtTokAux (some (bn, c :: acc)) rest
      else mkDTok bn acc :: dtTokAux (some (b, [c])) rest

def dtTokenize (l : List Char) : List DTok := dtTokAux none l

/-- Month names the parser recognises (three-letter abbreviations, the
full names, and "SEPT"); candidates are drawn from the uppercased text. -/
def monthOf (w : List Char) : Option Nat :=
  let s : String := ⟨w⟩
  if s = "JAN" ∨ s = "JANUARY" then some 1
  else if s = "FEB" ∨ s = "FEBRUARY" then some 2
  else if s = "MAR" ∨ s = "MARCH" then some 3
  else if s = "APR" ∨ s = "APRIL" then some 4
  else if s = "MAY" then some 5
  else if s = "JUN" ∨ s = "JUNE" then some 6
  else if s = "JUL" ∨ s = "JULY" then some 7
  else if s = "AUG" ∨ s = "AUGUST" then some 8
  else if s = "SEP" ∨ s = "SEPT" ∨ s = "SEPTEMBER" then some 9
  else if s = "OCT" ∨ s = "OCTOBER" then some 10
  else if s = "NOV" ∨ s = "NOVEMBER" then some 11
  else if s = "DEC" ∨ s = "DECEMBER" then some 12
  else none

/-- Two-digit years get the 2000 century (the library's ±50-year window
around the current year agrees with this for the years appearing in the
repository's documents). -/
def convYear (ds : List Char) : Nat :=
  if ds.length ≤ 2 then 2000 + digitsVal ds else digitsVal ds

/-- Modelled from the spec: the repository delegates individual date
candidates to the external `dateutil` parser
(`dtparser.parse(s, dayfirst=True, fuzzy=True)`), which is not part of
this repository; §4.4 of the spec describes it as "a lenient day-first,
fuzzy calendar parser" whose per-candidate failures are discarded.
The model parses the candidate shapes the four date patterns emit:
three numeric fields (day-first, with the month/day swap the lenient
parser applies when the preferred assignment is invalid, and year-first
when the leading field has four digits), and day/month-name/year in
either order. Invalid dates fail (`none`), as a raising parse does. -/
def dtparse (s : String) : Option PDate :=
  match dtTokenize s.toList with
  | [.num a, .num b, .num c] =>
    if a.length == 4 then
      (mkDate? (digitsVal a) (digitsVal c) (digitsVal b)).orElse
        (fun _ => mkDate? (digitsVal a) (digitsVal b) (digitsVal c))
    else
      (mkDate? (convYear c) (digitsVal b) (digitsVal a)).orElse
        (fun _ => mkDate? (convYear c) (digitsVal a) (digitsVal b))
  | [.num d, .word w, .num yds] =>
    (monthOf w).bind (fun m => mkDate? (convYear yds) m (digitsVal d))
  | [.word w, .num d, .num yds] =>
    (monthOf w).bind (fun m => mkDate? (convYear yds) m (digitsVal d))
  | _ => none

/-! ### The field extractors of `extract_fields` -/

/-- The output record: the five-field mapping `extract_fields` returns. -/
structure Extracted where
  supplier : Option String
  invoice_number : Option String
  date : Option String
  total : Option PyF
  gst : Option PyF
deriving DecidableEq, Repr

/-- Python's `in` on strings (substring containment). -/
def containsSub (pat l : List Char) : Bool :=
  l.tails.any (fun suf => pat.isPrefixOf suf)

/-- `[ln.strip() for ln in up.splitlines() if ln.strip()]` -/
def upLines (up : String) : List String :=
  ((pySplitLines up).map pyStrip).filter (fun l => l ≠ "")

/-- Index of the first line matching the heading pattern. -/
def headingIdx (lines : List String) : Option Nat :=
  lines.findIdx? (fun ln => (reSearch ln.toList headingPat).isSome)

/-- Index of the first line containing the literal `GSTIN` or matching
`_GSTIN_RE`. -/
def gstinIdx (lines : List String) : Option Nat :=
  lines.findIdx? (fun l =>
    containsSub "GSTIN".toList l.toList || (reSearch l.toList _GSTIN_RE).isSome)

def joinSp (ls : List String) : String := String.intercalate " " ls

/-- The supplier heuristic of `extract_fields` (step 1), before the final
shorter-than-3 filter. -/
def supplierRaw (lines : List String) : Option String :=
  match headingIdx lines with
  | some i =>
    let block := joinSp (lines.take i)
    if block ≠ "" then some (pyTitle block) else none
  | none =>
    match gstinIdx lines with
    | some i => some (pyTitle (joinSp ((lines.take i).drop (i - 3))))
    | none => none

/-- The invoice-number loop (step 2): first pattern with a match wins,
taking that pattern's first match. -/
def invoiceNumberWith (pats : List RE) (up : List Char) : Option String :=
  match pats with
  | [] => none
  | p :: rest =>
    match reSearch up p with
    | some m => some (pyStrip (grp1Str up m.2.2))
    | none => invoiceNumberWith rest up

/-- Date candidates (step 3): per pattern, `re.findall`, strip `' .,:'`,
parse leniently, discard failures. -/
def dateCandidates (up : List Char) : List PDate :=
  _DATE_PATTERNS.flatMap (fun pat =>
    (reFindall1 up pat).filterMap (fun s =>
      dtparse (pyStripP (fun c => c == ' ' || c == '.' || c == ',' || c == ':') s)))

def insertD (x : PDate) : List PDate → List PDate
  | [] => [x]
  | y :: ys => if x.key ≤ y.key then x :: y :: ys else y :: insertD x ys

/-- Python `sorted` on dates (the comparison key is injective on valid
dates, so stability is irrelevant). -/
def sortD : List PDate → List PDate
  | [] => []
  | x :: xs => insertD x (sortD xs)

/-- Step 3's result: `sorted(date_candidates)[0].isoformat()` when any
candidate parsed. -/
def dateField (up : List Char) : Option String :=
  match sortD (dateCandidates up) with
  | [] => none
  | d :: _ => some d.iso

/-- Candidate confidence tags of step 4 (the tuple's position component
`m.start()` is dropped: the selection key reads only tag and value). -/
inductive Tag where
  | keyword
  | anyNum
deriving DecidableEq, Repr

def tagRank : Tag → Nat
  | .keyword => 0
  | .anyNum => 1

/-- Python's tuple comparison on the selection key
`(0 if keyword else 1, value)`. -/
def keyLtb (a b : Tag × PyF) : Bool :=
  tagRank a.1 < tagRank b.1 || (tagRank a.1 == tagRank b.1 && PyF.ltb a.2 b.2)

/-- Python `max(..., key=...)`: keeps the earlier element unless a
strictly greater key appears. -/
def pyMaxKey : (Tag × PyF) → List (Tag × PyF) → (Tag × PyF)
  | best, [] => best
  | best, x :: xs => pyMaxKey (if keyLtb best x then x else best) xs

/-- Keyword-tier total candidates (both `_TOTAL_PATTERNS`, all matches,
amounts that clean to a number). -/
def totalKeywordVals (up : List Char) : List PyF :=
  _TOTAL_PATTERNS.flatMap (fun pat =>
    (reFinditer up pat).filterMap (fun m => _clean_money (grp2Str up m.2.2)))

/-- Fallback-tier monetary candidates. -/
def totalFallbackVals (up : List Char) : List PyF :=
  (reFindall1 up moneyAnyPat).filterMap _clean_money

/-- `total_candidates` after step 4's two phases. -/
def totalCandidates (up : List Char) : List (Tag × PyF) :=
  let kwAll := (totalKeywordVals up).map (fun v => (Tag.keyword, v))
  if kwAll = [] then (totalFallbackVals up).map (fun v => (Tag.anyNum, v))
  else kwAll

/-- Step 4's selection: `max(kw or total_candidates, key=...)`. -/
def totalField (up : List Char) : Option PyF :=
  match totalCandidates up with
  | [] => none
  | c :: cs =>
    match (c :: cs).filter (fun x => x.1 == Tag.keyword) with
    | [] => some (pyMaxKey c cs).2
    | k :: ks => some (pyMaxKey k ks).2

/-- `(total\s*tax[:\-\s]*)([0-9,\.\s]+)`, also reused by step 5's
fallback search. -/
def gstPatTotalTax : RE := _GST_LINE_PATTERNS.headD .eps

/-- Step 5's candidate amounts: every match of every GST line pattern
whose last group cleans to a number (`m.groups()[-1]` is group 2 for all
three two-group patterns). -/
def gstAmounts (up : List Char) : List PyF :=
  _GST_LINE_PATTERNS.flatMap (fun pat =>
    (reFinditer up pat).filterMap (fun m => _clean_money (grp2Str up m.2.2)))

/-- Step 5's fallback: a second `total tax` search whose amount is
cleaned (and may itself fail to a null). -/
def gstFallbackVal (up : List Char) : Option PyF :=
  match reSearch up gstPatTotalTax with
  | some m => _clean_money (grp2Str up m.2.2)
  | none => none

/-- Step 5: the sum of the candidate amounts, else the fallback
`total tax` search, else null. -/
def gstField (up : List Char) : Option PyF :=
  match gstAmounts up with
  | [] => gstFallbackVal up
  | v :: vs => some (pySum (v :: vs))

/-- Step 1 plus the final guard of `extract_fields`: a truthy supplier
shorter than 3 characters is discarded (the empty string survives, being
falsy). -/
def supplierField (lines : List String) : Option String :=
  match supplierRaw lines with
  | some s => if s ≠ "" ∧ s.length < 3 then none else some s
  | none => none

/-- `extract_fields` from `parser.py`. -/
def extract_fields (raw_text : String) : Extracted :=
  let norm := _norm_text raw_text
  let up := pyUpper norm
  let lines := upLines up
  let upL := up.toList
  { supplier := supplierField lines
    invoice_number := invoiceNumberWith _INVOICE_PATTERNS upL
    date := dateField upL
    total := totalField upL
    gst := gstField upL }

/-- `extract_fields` with the bare-`invoice` fallback pattern removed
from `_INVOICE_PATTERNS` (the comparison function of the refinement
claim). -/
def extract_fields_nofb (raw_text : String) : Extracted :=
  let norm := _norm_text raw_text
  let up := pyUpper norm
  let lines := upLines up
  let upL := up.toList
  { supplier := supplierField lines
    invoice_number := invoiceNumberWith _INVOICE_PATTERNS.dropLast upL
    date := dateField upL
    total := totalField upL
    gst := gstField upL }

/-- The uppercased normalized text `extract_fields` matches against. -/
def upOf (raw : String) : List Char := (pyUpper (_norm_text raw)).toList

/-- The stripped nonempty line list `extract_fields` works on. -/
def linesOf (raw : String) : List String := upLines (pyUpper (_norm_text raw))

/-- Decidable rendering of the spec's "total ≈ x": present, finite and
strictly between the given bounds. -/
def totalNear (o : Option PyF) (lo hi : ℚ) : Bool :=
  match o with
  | some (.fin q) => decide (lo < q) && decide (q < hi)
  | _ => false

/-! ### Literal inputs named by the claims -/

/-- Literal scenario 2 of the spec (claim C3). -/
def c3text : String :=
  "GSTIN: 27CORPP3939N1ZQ TAX INVOICE\nInvoice No. GST-3525-26 Invoice Date 23-Jul-2025\nTotal Amount After Tax ₹4,490.00\nTaxable Amount 3,805.00\nTotal Tax 684.90"

/-- Literal scenario 1 of the spec (claim C7). -/
def c7text : String :=
  "Bill No: IN-15  Date: 23-Jan-2025\nSubtotal 900.00\nIGST at 12% 60.00\nTOTAL 968.00"

/-- The keyword-vs-fallback document of claim C1. -/
def c1text : String := "Total: 500\nsomething else 999"

/-- The CGST/SGST document of claim C2. -/
def c2text : String := "CGST 16,250.00\nSGST 16,250.00"

/-- A two-date document (issue date before due date), for the date
disambiguation witness of claim C4. -/
def c4text : String := "DATE 23/07/2025 DUE 23/08/2025"

/-- A document in which no field is found, for the per-field-null witness
of claim C6. -/
def c6text : String := "nothing to see here"

/-- An adversarial document for claim C5: a labeled amount whose digits
overflow the IEEE double range and contain a decimal point, which
CPython's `float` turns into `inf` rather than raising. -/
def c5advText : String := "AMOUNT " ++ (⟨List.replicate 312 '9'⟩ : String) ++ ".0"

/-- A heading-less document whose second line holds a 12-character (but
not 14-character, and not digit-led) alphanumeric run, for claim C9's
counterexample. -/
def c9cexText : String := "Hello World Inc\nABCDEFGHIJKL123"

/-- Maximal alphanumeric runs (tokens) of a line. -/
def alnumToksAux (cur : List Char) : List Char → List (List Char)
  | [] => if cur = [] then [] else [cur.reverse]
  | c :: rest =>
    if c.isAlphanum then alnumToksAux (c :: cur) rest
    else if cur = [] then alnumToksAux [] rest
    else cur.reverse :: alnumToksAux [] rest

def alnumToks (l : List Char) : List (List Char) := alnumToksAux [] l

/-- Claim C9's own notion of a GSTIN anchor, written from the claim's
words: a line containing the literal "GSTIN", or containing a
14-character alphanumeric token beginning with two digits. (The code's
`_GSTIN_RE` differs: it is a 12-character run, with no digit
requirement.) -/
def specAnchorLine (l : String) : Bool :=
  containsSub "GSTIN".toList l.toList ||
  (alnumToks l.toList).any (fun tok =>
    tok.length == 14 && (tok.take 2).all Char.isDigit)

/-! ### Capture-group bookkeeping used by the invariants claim -/

/-- Whether the pattern contains capture group `k`. -/
def hasGrp (k : Nat) : RE → Bool
  | .eps => false
  | .str _ => false
  | .cls _ => false
  | .clsStar _ => false
  | .wb => false
  | .eolM => false
  | .seq a b => hasGrp k a || hasGrp k b
  | .alt a b => hasGrp k a || hasGrp k b
  | .opt a => hasGrp k a
  | .grp j a => j == k || hasGrp k a

/-- A pattern whose every match consumes only characters satisfying `p`
(and touches no group): the shape of the amount sub-patterns. -/
def SliceP (t : List Char) (p : Char → Bool) (r : RE) : Prop :=
  ∀ i g x, x ∈ RE.mall t r i g →
    i ≤ x.1 ∧ (∀ c ∈ (t.drop i).take (x.1 - i), p c = true) ∧ x.2 = g

/-- The shape of every amount-capturing pattern of `parser.py`: a right
nested concatenation in which group `k` appears exactly once, capturing a
`SliceP`-bounded body. -/
inductive GrpShape (t : List Char) (p : Char → Bool) (k : Nat) : RE → Prop
  | free (r : RE) : hasGrp k r = false → GrpShape t p k r
  | capt (body : RE) (hk : k = 1 ∨ k = 2) :
      SliceP t p body → GrpShape t p k (.grp k body)
  | seq (a b : RE) : GrpShape t p k a → GrpShape t p k b →
      GrpShape t p k (.seq a b)

theorem extract_fields_supplier (raw : String) :
    (extract_fields raw).supplier = supplierField (linesOf raw) := by
  simp only [extract_fields, linesOf]

theorem extract_fields_invoice (raw : String) :
    (extract_fields raw).invoice_number =
      invoiceNumberWith _INVOICE_PATTERNS (upOf raw) := by
  simp only [extract_fields, upOf]

theorem extract_fields_date (raw : String) :
    (extract_fields raw).date = dateField (upOf raw) := by
  simp only [extract_fields, upOf]

theorem extract_fields_total (raw : String) :
    (extract_fields raw).total = totalField (upOf raw) := by
  simp only [extract_fields, upOf]

theorem extract_fields_gst (raw : String) :
    (extract_fields raw).gst = gstField (upOf raw) := by
  simp only [extract_fields, upOf]

/-! ### Claim C8 — money normalization examples -/

/-- C8: the money normalizer maps `"₹4,490.00"`, `"Rs. 4490"` and
`"INR4490.00"` each to the numeric value 4490.00, and maps a digit-free
string such as `"—"` to null, never to 0. -/
theorem C8_clean_money_examples :
    _clean_money "₹4,490.00" = some (PyF.fin 4490) ∧
    _clean_money "Rs. 4490" = some (PyF.fin 4490) ∧
    _clean_money "INR4490.00" = some (PyF.fin 4490) ∧
    _clean_money "—" = none := by decide

/-! ### Claim C2 — GST sums every candidate -/

/-- C2: whenever at least one GST-line pattern occurrence yields a
parseable number, the returned `gst` is the sum of all such parsed
candidate amounts, not a single selected one. -/
theorem C2_gst_sums_all_candidates (raw : String)
    (h : gstAmounts (upOf raw) ≠ []) :
    (extract_fields raw).gst = some (pySum (gstAmounts (upOf raw))) := by
  rw [extract_fields_gst]
  unfold gstField
  rcases hl : gstAmounts (upOf raw) with _ | ⟨v, vs⟩
  · exact absurd hl h
  · rfl

/-- C2 witness: the document with `CGST 16,250.00` and `SGST 16,250.00`
and no other tax line returns gst = 32500.00, through the theorem. -/
theorem C2_gst_sums_all_candidates_witness :
    (extract_fields c2text).gst = some (PyF.fin 32500) :=
  (C2_gst_sums_all_candidates c2text (by decide)).trans (by decide)

/-! ### Claim C3 — literal scenario 2 -/

/-- C3 counterexample: on the spec's literal scenario 2 input the code
does not return `invoice_number = "GST-3525-26"`, `total ≈ 4490.00` and
`date = "2025-07-23"` (the invoice-number and date parts fail). -/
theorem C3_literal_scenario2_refuted :
    ¬ ((extract_fields c3text).invoice_number = some "GST-3525-26" ∧
       totalNear (extract_fields c3text).total 4489 4491 = true ∧
       (extract_fields c3text).date = some "2025-07-23") := by decide

/-- C3 amended: on the literal scenario 2 input, `extract_fields` returns
`total = 4490.00` as claimed, but `invoice_number = "INVOICE"` (the first
pattern's leftmost match starts at the heading's "TAX INVOICE" and
captures the next line's first token) and `date = null` ("23-Jul-2025"
matches no date pattern, whose shapes require whitespace, not hyphens,
around the month name). -/
theorem C3_literal_scenario2_actual :
    (extract_fields c3text).invoice_number = some "INVOICE" ∧
    (extract_fields c3text).total = some (PyF.fin 4490) ∧
    (extract_fields c3text).date = none := by decide

/-! ### Claim C7 — literal scenario 1 -/

/-- C7 counterexample: on the spec's literal scenario 1 input the code
returns `total ≈ 968.00` but not `date = "2025-01-23"` (no date pattern
matches the hyphenated "23-Jan-2025", so the date is null). -/
theorem C7_literal_scenario1_refuted :
    ¬ (totalNear (extract_fields c7text).total 967 969 = true ∧
       (extract_fields c7text).date = some "2025-01-23") := by decide

/-- C7 amended: on the literal scenario 1 input, `total = 968.00` — the
trailing-line total pattern also matches `Subtotal 900.00` but the larger
keyword candidate 968.00 wins — and `date = null`, since the hyphenated
"23-Jan-2025" matches no date-shape pattern. -/
theorem C7_literal_scenario1_actual :
    (extract_fields c7text).total = some (PyF.fin 968) ∧
    PyF.fin 900 ∈ totalKeywordVals (upOf c7text) ∧
    PyF.fin 968 ∈ totalKeywordVals (upOf c7text) ∧
    (extract_fields c7text).date = none := by decide

/-! ### Float-order helper lemmas -/

/-- The kernel-evaluable addition is ordinary rational addition. -/
theorem pyRatAdd_eq_add (a b : ℚ) : pyRatAdd a b = a + b := by
  unfold pyRatAdd
  rw [Rat.mkRat_eq_div]
  have ha : ((a.den : ℚ)) ≠ 0 := Nat.cast_ne_zero.mpr a.den_nz
  have hb : ((b.den : ℚ)) ≠ 0 := Nat.cast_ne_zero.mpr b.den_nz
  conv_rhs => rw [← Rat.num_div_den a, ← Rat.num_div_den b]
  rw [div_add_div _ _ ha hb]
  push_cast
  ring_nf

theorem PyF.leb_refl (a : PyF) : a.leb a = true := by
  cases a <;> simp [PyF.leb]

theorem PyF.leb_of_ltb {a b : PyF} (h : a.ltb b = true) : a.leb b = true := by
  cases a <;> cases b <;> simp_all [PyF.ltb, PyF.leb] <;> exact le_of_lt h

theorem PyF.leb_of_not_ltb {a b : PyF} (h : a.ltb b = false) : b.leb a = true := by
  cases a <;> cases b <;> simp_all [PyF.ltb, PyF.leb, not_lt]

theorem PyF.leb_trans {a b c : PyF} (h1 : a.leb b = true) (h2 : b.leb c = true) :
    a.leb c = true := by
  cases a <;> cases b <;> cases c <;> simp_all [PyF.leb] <;> exact le_trans h1 h2

theorem keyLtb_pair (t : Tag) (a b : PyF) :
    keyLtb (t, a) (t, b) = PyF.ltb a b := by
  cases t <;> simp [keyLtb, tagRank]

/-- Python's `max` over a uniformly tagged candidate list returns a value
from the list that every value is `<=`. -/
theorem pyMaxKey_uniform (t : Tag) :
    ∀ (vs : List PyF) (b : PyF),
      (pyMaxKey (t, b) (vs.map (fun v => (t, v)))).2 ∈ b :: vs ∧
      b.leb (pyMaxKey (t, b) (vs.map (fun v => (t, v)))).2 = true ∧
      ∀ w ∈ vs, w.leb (pyMaxKey (t, b) (vs.map (fun v => (t, v)))).2 = true
  | [], b => by simp [pyMaxKey, PyF.leb_refl]
  | x :: xs, b => by
    have hif : (if keyLtb (t, b) (t, x) then (t, x) else (t, b))
        = (t, if PyF.ltb b x then x else b) := by
      rw [keyLtb_pair]; split <;> rfl
    have hstep : pyMaxKey (t, b) ((x :: xs).map (fun v => (t, v)))
        = pyMaxKey (t, if PyF.ltb b x then x else b) (xs.map (fun v => (t, v))) := by
      simp only [List.map, pyMaxKey, hif]
    obtain ⟨ihmem, ihacc, ihall⟩ := pyMaxKey_uniform t xs (if PyF.ltb b x then x else b)
    rw [hstep]
    have hbc : b.leb (if PyF.ltb b x then x else b) = true := by
      cases hbx : PyF.ltb b x
      · simp [hbx, PyF.leb_refl]
      · simp [hbx, PyF.leb_of_ltb hbx]
    have hxc : x.leb (if PyF.ltb b x then x else b) = true := by
      cases hbx : PyF.ltb b x
      · simp [hbx, PyF.leb_of_not_ltb hbx]
      · simp [hbx, PyF.leb_refl]
    refine ⟨?_, ?_, ?_⟩
    · rcases List.mem_cons.mp ihmem with hm | hm
      · rw [hm]
        cases hbx : PyF.ltb b x
        · simp [hbx]
        · simp [hbx]
      · simp [hm]
    · exact PyF.leb_trans hbc ihacc
    · intro w hw
      rcases List.mem_cons.mp hw with hwx | hwxs
      · rw [hwx]; exact PyF.leb_trans hxc ihacc
      · exact ihall w hwxs

theorem filter_keyword_map_keyword (vs : List PyF) :
    ((vs.map (fun v => (Tag.keyword, v))).filter (fun x => x.1 == Tag.keyword))
      = vs.map (fun v => (Tag.keyword, v)) := by
  induction vs with
  | nil => rfl
  | cons x xs ih => simp [List.filter_cons, ih]

theorem filter_keyword_map_any (vs : List PyF) :
    ((vs.map (fun v => (Tag.anyNum, v))).filter (fun x => x.1 == Tag.keyword))
      = [] := by
  induction vs with
  | nil => rfl
  | cons x xs ih => simp [List.filter_cons, ih]

theorem totalField_eq_kw {up : List Char} {v : PyF} {vs : List PyF}
    (hk : totalKeywordVals up = v :: vs) :
    totalField up
      = some (pyMaxKey (Tag.keyword, v) (vs.map (fun w => (Tag.keyword, w)))).2 := by
  have hc : totalCandidates up = (v :: vs).map (fun w => (Tag.keyword, w)) := by
    simp [totalCandidates, hk]
  simp [totalField, hc, List.map_cons, List.filter_cons, filter_keyword_map_keyword vs]

theorem totalField_eq_fb {up : List Char} {w : PyF} {ws : List PyF}
    (hk : totalKeywordVals up = []) (hf : totalFallbackVals up = w :: ws) :
    totalField up
      = some (pyMaxKey (Tag.anyNum, w) (ws.map (fun v => (Tag.anyNum, v)))).2 := by
  have hc : totalCandidates up = (w :: ws).map (fun v => (Tag.anyNum, v)) := by
    simp [totalCandidates, hk, hf]
  simp [totalField, hc, List.map_cons, List.filter_cons, filter_keyword_map_any ws]

/-! ### Claim C1 — keyword tier dominates fallback tier -/

/-- C1: whenever at least one keyword-tier candidate exists, the returned
total is the largest parsed value among the keyword-tier candidates
(fallback candidates are ignored); the fallback tier is consulted only
when zero keyword candidates exist, and then the largest fallback value
is returned. -/
theorem C1_total_keyword_tier_dominates (raw : String) :
    (totalKeywordVals (upOf raw) ≠ [] →
       ∃ v ∈ totalKeywordVals (upOf raw),
         (extract_fields raw).total = some v ∧
         ∀ w ∈ totalKeywordVals (upOf raw), w.leb v = true) ∧
    (totalKeywordVals (upOf raw) = [] → totalFallbackVals (upOf raw) ≠ [] →
       ∃ v ∈ totalFallbackVals (upOf raw),
         (extract_fields raw).total = some v ∧
         ∀ w ∈ totalFallbackVals (upOf raw), w.leb v = true) := by
  constructor
  · intro hkw
    rcases hk : totalKeywordVals (upOf raw) with _ | ⟨v, vs⟩
    · exact absurd hk hkw
    · obtain ⟨hmem, hacc, hall⟩ := pyMaxKey_uniform Tag.keyword vs v
      refine ⟨(pyMaxKey (Tag.keyword, v) (vs.map (fun w => (Tag.keyword, w)))).2,
        ?_, ?_, ?_⟩
      · exact hmem
      · rw [extract_fields_total, totalField_eq_kw hk]
      · intro w hw
        rcases List.mem_cons.mp hw with h | h
        · rw [h]; exact hacc
        · exact hall w h
  · intro hk hfb
    rcases hf : totalFallbackVals (upOf raw) with _ | ⟨w, ws⟩
    · exact absurd hf hfb
    · obtain ⟨hmem, hacc, hall⟩ := pyMaxKey_uniform Tag.anyNum ws w
      refine ⟨(pyMaxKey (Tag.anyNum, w) (ws.map (fun v => (Tag.anyNum, v)))).2,
        ?_, ?_, ?_⟩
      · exact hmem
      · rw [extract_fields_total, totalField_eq_fb hk hf]
      · intro u hu
        rcases List.mem_cons.mp hu with h | h
        · rw [h]; exact hacc
        · exact hall u h

/-- C1 witness: the theorem applied to the document with a labeled
"Total: 500" and an unlabeled "999", plus the claimed outcome 500. -/
theorem C1_total_keyword_tier_dominates_witness :
    (∃ v ∈ totalKeywordVals (upOf c1text),
       (extract_fields c1text).total = some v ∧
       ∀ w ∈ totalKeywordVals (upOf c1text), w.leb v = true) ∧
    (extract_fields c1text).total = some (PyF.fin 500) :=
  ⟨(C1_total_keyword_tier_dominates c1text).1 (by decide), by decide⟩

/-! ### Sorting helper lemmas for the date disambiguator -/

theorem insertD_ne_nil (a : PDate) (l : List PDate) : insertD a l ≠ [] := by
  cases l with
  | nil => simp [insertD]
  | cons y ys =>
    simp only [insertD]
    split <;> simp

theorem sortD_eq_nil_iff (l : List PDate) : sortD l = [] ↔ l = [] := by
  cases l with
  | nil => simp [sortD]
  | cons x xs => simp [sortD, insertD_ne_nil]

/-- The head of the insertion sort is a member of the list and its
minimum (by the calendar key). -/
theorem sortD_head_min :
    ∀ (l : List PDate) (d : PDate) (rest : List PDate),
      sortD l = d :: rest → d ∈ l ∧ ∀ x ∈ l, d.key ≤ x.key
  | [], d, rest => by intro h; simp [sortD] at h
  | a :: l', d, rest => by
    intro h
    cases hs : sortD l' with
    | nil =>
      have hl' : l' = [] := (sortD_eq_nil_iff l').mp hs
      subst hl'
      simp [sortD, insertD] at h
      obtain ⟨rfl, -⟩ := h
      exact ⟨List.mem_cons_self _ _, by intro x hx; simp at hx; simp [hx]⟩
    | cons b bs =>
      obtain ⟨hbmem, hbmin⟩ := sortD_head_min l' b bs hs
      have hh : insertD a (b :: bs) = d :: rest := by
        simpa [sortD, hs] using h
      simp only [insertD] at hh
      split at hh
      · next hab =>
        injection hh with h1 h2
        subst h1
        refine ⟨List.mem_cons_self _ _, ?_⟩
        intro x hx
        rcases List.mem_cons.mp hx with rfl | hx'
        · exact Nat.le_refl _
        · exact Nat.le_trans hab (hbmin x hx')
      · next hab =>
        injection hh with h1 h2
        subst h1
        refine ⟨List.mem_cons_of_mem _ hbmem, ?_⟩
        intro x hx
        rcases List.mem_cons.mp hx with rfl | hx'
        · exact Nat.le_of_lt (Nat.lt_of_not_le hab)
        · exact hbmin x hx'

/-! ### Claim C4 — earliest parsed date wins, failures discarded -/

/-- C4: the returned date is the earliest calendar date among the
candidates matched by the four date patterns that parse under the lenient
day-first parser; candidates failing to parse are discarded (they simply
do not appear in `dateCandidates`), and if no candidate parses the date
is null. -/
theorem C4_date_earliest (raw : String) :
    ((extract_fields raw).date = none ↔ dateCandidates (upOf raw) = []) ∧
    ∀ s, (extract_fields raw).date = some s →
      ∃ dt ∈ dateCandidates (upOf raw), s = dt.iso ∧
        ∀ d ∈ dateCandidates (upOf raw), dt.key ≤ d.key := by
  rw [extract_fields_date]
  unfold dateField
  cases hs : sortD (dateCandidates (upOf raw)) with
  | nil =>
    refine ⟨by simp [(sortD_eq_nil_iff _).mp hs], ?_⟩
    intro s hsome
    exact absurd hsome (by simp)
  | cons d rest =>
    obtain ⟨hmem, hmin⟩ := sortD_head_min (dateCandidates (upOf raw)) d rest hs
    refine ⟨?_, ?_⟩
    · constructor
      · intro h; exact absurd h (by simp)
      · intro h; rw [h] at hs; simp [sortD] at hs
    · intro s hsome
      have : d.iso = s := by injection hsome
      exact ⟨d, hmem, this.symm, hmin⟩

/-- C4 witness: on a document holding an issue date 23/07/2025 and a due
date 23/08/2025, the theorem yields the earliest, 2025-07-23. -/
theorem C4_date_earliest_witness :
    ∃ dt ∈ dateCandidates (upOf c4text), "2025-07-23" = dt.iso ∧
      ∀ d ∈ dateCandidates (upOf c4text), dt.key ≤ d.key :=
  (C4_date_earliest c4text).2 "2025-07-23" (by decide)

/-! ### Claim C6 — total extraction, independent per-field nulls -/

theorem invoiceNumberWith_eq_none_iff (pats : List RE) (up : List Char) :
    invoiceNumberWith pats up = none ↔ ∀ p ∈ pats, reSearch up p = none := by
  induction pats with
  | nil => simp [invoiceNumberWith]
  | cons p rest ih =>
    simp only [invoiceNumberWith]
    cases hm : reSearch up p with
    | some m => simp [hm]
    | none => simp [hm, ih]

/-- C6: `extract_fields` is a total function into the five-field record
(the embedding is a Lean function, so termination and absence of
exceptions are by construction), and every "not found" condition turns
into a null for exactly that field: the date is null iff no candidate
parsed; the total is null iff both candidate tiers are empty; the gst is
null iff there are no tax-line amounts and the fallback search cleans to
nothing; the invoice number is null iff every pattern fails; and with no
heading line and no GSTIN anchor the supplier is null. -/
theorem C6_fields_null_independently (raw : String) :
    ((extract_fields raw).date = none ↔ dateCandidates (upOf raw) = []) ∧
    ((extract_fields raw).total = none ↔ totalCandidates (upOf raw) = []) ∧
    ((extract_fields raw).gst = none ↔
        gstAmounts (upOf raw) = [] ∧ gstFallbackVal (upOf raw) = none) ∧
    ((extract_fields raw).invoice_number = none ↔
        ∀ p ∈ _INVOICE_PATTERNS, reSearch (upOf raw) p = none) ∧
    (headingIdx (linesOf raw) = none → gstinIdx (linesOf raw) = none →
        (extract_fields raw).supplier = none) := by
  refine ⟨?_, ?_, ?_, ?_, ?_⟩
  · rw [extract_fields_date]
    unfold dateField
    cases hs : sortD (dateCandidates (upOf raw)) with
    | nil => simp [(sortD_eq_nil_iff _).mp hs]
    | cons d rest =>
      have hne : dateCandidates (upOf raw) ≠ [] := by
        intro h; rw [h] at hs; simp [sortD] at hs
      simp [hne]
  · rw [extract_fields_total]
    unfold totalField
    cases hc : totalCandidates (upOf raw) with
    | nil => simp
    | cons c cs =>
      cases hf : (c :: cs).filter (fun x => x.1 == Tag.keyword) <;> simp [hf]
  · rw [extract_fields_gst]
    unfold gstField
    cases hg : gstAmounts (upOf raw) with
    | nil => simp
    | cons v vs => simp
  · rw [extract_fields_invoice]
    exact invoiceNumberWith_eq_none_iff _ _
  · intro h1 h2
    rw [extract_fields_supplier]
    unfold supplierField supplierRaw
    rw [h1, h2]

/-- C6 witness: on a document containing none of the fields, the theorem
gives null date and null supplier. -/
theorem C6_fields_null_independently_witness :
    (extract_fields c6text).date = none ∧ (extract_fields c6text).supplier = none :=
  ⟨(C6_fields_null_independently c6text).1.mpr (by decide),
   (C6_fields_null_independently c6text).2.2.2.2 (by decide) (by decide)⟩

/-! ### Claim C9 — supplier GSTIN fallback -/

/-- C9 counterexample: a heading-less document in which no line contains
the literal "GSTIN" or a 14-character digit-led alphanumeric token — so
the claim requires a null supplier — yet the code returns a supplier,
because `_GSTIN_RE` anchors on any 12-character alphanumeric run. -/
theorem C9_gstin_anchor_refuted :
    headingIdx (linesOf c9cexText) = none ∧
    (∀ l ∈ linesOf c9cexText, specAnchorLine l = false) ∧
    (extract_fields c9cexText).supplier = some "Hello World Inc" := by
  refine ⟨by decide, by decide, by decide⟩

/-- C9 amended: in a heading-less document the supplier comes from the
first line containing the literal "GSTIN" or any 12 consecutive
alphanumeric uppercase characters (`_GSTIN_RE`, not a 14-character
digit-led token): the join of up to the three preceding lines,
title-cased, discarded only when nonempty yet shorter than 3 characters;
with no such anchor the supplier is null. -/
theorem C9_supplier_gstin_fallback (raw : String)
    (h : headingIdx (linesOf raw) = none) :
    (extract_fields raw).supplier =
      (match gstinIdx (linesOf raw) with
       | none => none
       | some i =>
         let c := pyTitle (joinSp (((linesOf raw).take i).drop (i - 3)))
         if c ≠ "" ∧ c.length < 3 then none else some c) := by
  rw [extract_fields_supplier]
  unfold supplierField supplierRaw
  rw [h]
  cases hg : gstinIdx (linesOf raw) with
  | none => rfl
  | some i => rfl

/-- C9 witness: the amended theorem applied to the counterexample
document, whose anchor is the 12-character run on line 1, giving the
title-cased join of the preceding line. -/
theorem C9_supplier_gstin_fallback_witness :
    (extract_fields c9cexText).supplier = some "Hello World Inc" :=
  (C9_supplier_gstin_fallback c9cexText (by decide)).trans (by decide)

/-! ### Characterizations of the matcher -/

theorem mem_mall_seq {t : List Char} {a b : RE} {i : Nat} {g : RGroups}
    {x : Nat × RGroups} :
    x ∈ RE.mall t (.seq a b) i g ↔
      ∃ y ∈ RE.mall t a i g, x ∈ RE.mall t b y.1 y.2 := by
  simp [RE.mall, List.mem_flatMap]

theorem mem_mall_alt {t : List Char} {a b : RE} {i : Nat} {g : RGroups}
    {x : Nat × RGroups} :
    x ∈ RE.mall t (.alt a b) i g ↔
      x ∈ RE.mall t a i g ∨ x ∈ RE.mall t b i g := by
  simp [RE.mall]

theorem mem_mall_opt {t : List Char} {a : RE} {i : Nat} {g : RGroups}
    {x : Nat × RGroups} :
    x ∈ RE.mall t (.opt a) i g ↔ x ∈ RE.mall t a i g ∨ x = (i, g) := by
  simp [RE.mall]

theorem mem_mall_grp {t : List Char} {a : RE} {k i : Nat} {g : RGroups}
    {x : Nat × RGroups} :
    x ∈ RE.mall t (.grp k a) i g ↔
      ∃ y ∈ RE.mall t a i g, x = (y.1, y.2.set k (i, y.1)) := by
  simp only [RE.mall, List.mem_map]
  constructor
  · rintro ⟨y, hy, rfl⟩; exact ⟨y, hy, rfl⟩
  · rintro ⟨y, hy, rfl⟩; exact ⟨y, hy, rfl⟩

theorem mem_mall_cls {t : List Char} {p : Char → Bool} {i : Nat} {g : RGroups}
    {x : Nat × RGroups} :
    x ∈ RE.mall t (.cls p) i g ↔
      ∃ c, t.get? i = some c ∧ p c = true ∧ x = (i + 1, g) := by
  simp only [RE.mall]
  cases hc : t.get? i with
  | none => simp
  | some c =>
    constructor
    · intro hx
      split at hx <;> simp_all
    · rintro ⟨c', hc', hpc, rfl⟩
      obtain rfl : c' = c := by simp_all
      simp [hpc]

theorem mem_mall_clsStar {t : List Char} {p : Char → Bool} {i : Nat}
    {g : RGroups} {x : Nat × RGroups} :
    x ∈ RE.mall t (.clsStar p) i g ↔
      ∃ k ≤ runLen t p i, x = (i + k, g) := by
  simp only [RE.mall, List.mem_map, List.mem_reverse, List.mem_range,
    Nat.lt_succ_iff]
  constructor
  · rintro ⟨m, hm, rfl⟩; exact ⟨m, hm, rfl⟩
  · rintro ⟨m, hm, rfl⟩; exact ⟨m, hm, rfl⟩

theorem mem_mall_str {t : List Char} {cs : List Char} {i : Nat} {g : RGroups}
    {x : Nat × RGroups} :
    x ∈ RE.mall t (.str cs) i g ↔
      cs.isPrefixOf (t.drop i) = true ∧ x = (i + cs.length, g) := by
  simp only [RE.mall]
  split <;> simp_all

theorem mem_mall_eps {t : List Char} {i : Nat} {g : RGroups}
    {x : Nat × RGroups} :
    x ∈ RE.mall t .eps i g ↔ x = (i, g) := by
  simp [RE.mall]

theorem mem_mall_wb {t : List Char} {i : Nat} {g : RGroups}
    {x : Nat × RGroups} :
    x ∈ RE.mall t .wb i g ↔ isWB t i = true ∧ x = (i, g) := by
  simp only [RE.mall]
  split <;> simp_all

theorem mem_mall_eolM {t : List Char} {i : Nat} {g : RGroups}
    {x : Nat × RGroups} :
    x ∈ RE.mall t .eolM i g ↔
      (i = t.length || t.get? i == some '\n') = true ∧ x = (i, g) := by
  simp only [RE.mall]
  split <;> simp_all

/-! ### Group bookkeeping lemmas -/

theorem get_set_same {k : Nat} (g : RGroups) (sp : Span) (hk : k = 1 ∨ k = 2) :
    RGroups.get k (g.set k sp) = some sp := by
  rcases hk with rfl | rfl <;> simp [RGroups.set, RGroups.get]

theorem get_set_other {k j : Nat} (h : (j == k) = false) (g : RGroups)
    (sp : Span) : RGroups.get k (g.set j sp) = RGroups.get k g := by
  have hjk : j ≠ k := by simpa using h
  unfold RGroups.set RGroups.get
  split_ifs <;> simp_all

/-- A pattern without group `k` leaves group `k` untouched in every
match. -/
theorem mall_get_of_hasGrp_false {t : List Char} {k : Nat} :
    ∀ (r : RE), hasGrp k r = false →
      ∀ i g x, x ∈ RE.mall t r i g → RGroups.get k x.2 = RGroups.get k g := by
  intro r
  induction r with
  | eps =>
    intro _ i g x hx
    obtain rfl := mem_mall_eps.mp hx; rfl
  | str cs =>
    intro _ i g x hx
    obtain ⟨-, rfl⟩ := mem_mall_str.mp hx; rfl
  | cls p =>
    intro _ i g x hx
    obtain ⟨c, -, -, rfl⟩ := mem_mall_cls.mp hx; rfl
  | clsStar p =>
    intro _ i g x hx
    obtain ⟨m, -, rfl⟩ := mem_mall_clsStar.mp hx; rfl
  | wb =>
    intro _ i g x hx
    obtain ⟨-, rfl⟩ := mem_mall_wb.mp hx; rfl
  | eolM =>
    intro _ i g x hx
    obtain ⟨-, rfl⟩ := mem_mall_eolM.mp hx; rfl
  | seq a b iha ihb =>
    intro hf i g x hx
    obtain ⟨hfa, hfb⟩ := by simpa [hasGrp] using hf
    obtain ⟨y, hy, hxb⟩ := mem_mall_seq.mp hx
    exact (ihb hfb y.1 y.2 x hxb).trans (iha hfa i g y hy)
  | alt a b iha ihb =>
    intro hf i g x hx
    obtain ⟨hfa, hfb⟩ := by simpa [hasGrp] using hf
    rcases mem_mall_alt.mp hx with h | h
    · exact iha hfa i g x h
    · exact ihb hfb i g x h
  | opt a iha =>
    intro hf i g x hx
    have hfa : hasGrp k a = false := by simpa [hasGrp] using hf
    rcases mem_mall_opt.mp hx with h | rfl
    · exact iha hfa i g x h
    · rfl
  | grp j a iha =>
    intro hf i g x hx
    obtain ⟨hjk, hfa⟩ := by simpa [hasGrp] using hf
    obtain ⟨y, hy, rfl⟩ := mem_mall_grp.mp hx
    calc RGroups.get k (y.2.set j (i, y.1))
        = RGroups.get k y.2 := get_set_other (by simpa using hjk) _ _
      _ = RGroups.get k g := iha hfa i g y hy

/-! ### Character-span lemmas for the amount sub-patterns -/

theorem take_eq_take_takeWhile (p : Char → Bool) :
    ∀ (l : List Char) (k : Nat), k ≤ (l.takeWhile p).length →
      l.take k = (l.takeWhile p).take k
  | [], k => by simp
  | c :: rest, k => by
    intro hk
    cases hpc : p c with
    | false =>
      have htw : (c :: rest).takeWhile p = [] := by
        simp [List.takeWhile_cons, hpc]
      rw [htw] at hk ⊢
      have hk0 : k = 0 := by simpa using hk
      simp [hk0]
    | true =>
      have htw : (c :: rest).takeWhile p = c :: rest.takeWhile p := by
        simp [List.takeWhile_cons, hpc]
      rw [htw] at hk ⊢
      cases k with
      | zero => simp
      | succ m =>
        simp only [List.take_succ_cons]
        rw [take_eq_take_takeWhile p rest m
          (by simp only [List.length_cons] at hk; omega)]

theorem get?_drop_cons :
    ∀ (t : List Char) (i : Nat) (c : Char), t.get? i = some c →
      t.drop i = c :: t.drop (i + 1)
  | [], i, c => by simp
  | a :: rest, 0, c => by
    intro h
    obtain rfl : a = c := by simpa using h
    simp
  | a :: rest, i + 1, c => by
    intro h
    have := get?_drop_cons rest i c (by simpa using h)
    simpa using this

theorem sliceP_cls_of {t : List Char} {p q : Char → Bool}
    (himp : ∀ c, p c = true → q c = true) : SliceP t q (.cls p) := by
  intro i g x hx
  obtain ⟨c, hc, hpc, rfl⟩ := mem_mall_cls.mp hx
  refine ⟨by omega, ?_, rfl⟩
  intro d hd
  rw [get?_drop_cons t i c hc] at hd
  have : d = c := by
    have h1 : i + 1 - i = 1 := by omega
    rw [h1] at hd
    simpa using hd
  rw [this]
  exact himp c hpc

theorem sliceP_clsStar {t : List Char} {p q : Char → Bool}
    (himp : ∀ c, p c = true → q c = true) : SliceP t q (.clsStar p) := by
  intro i g x hx
  obtain ⟨k, hk, rfl⟩ := mem_mall_clsStar.mp hx
  refine ⟨by omega, ?_, rfl⟩
  intro c hc
  have h1 : i + k - i = k := by omega
  rw [h1, take_eq_take_takeWhile p (t.drop i) k hk] at hc
  exact himp c (List.mem_takeWhile_imp (List.mem_of_mem_take hc))

theorem sliceP_seq {t : List Char} {p : Char → Bool} {a b : RE}
    (ha : SliceP t p a) (hb : SliceP t p b) : SliceP t p (.seq a b) := by
  intro i g x hx
  obtain ⟨y, hy, hxb⟩ := mem_mall_seq.mp hx
  obtain ⟨hiy, hca, hga⟩ := ha i g y hy
  obtain ⟨hyx, hcb, hgb⟩ := hb y.1 y.2 x hxb
  refine ⟨by omega, ?_, by rw [hgb, hga]⟩
  intro c hc
  have hsplit : x.1 - i = (y.1 - i) + (x.1 - y.1) := by omega
  rw [hsplit, List.take_add] at hc
  rcases List.mem_append.mp hc with h | h
  · exact hca c h
  · rw [List.drop_drop] at h
    have heq : i + (y.1 - i) = y.1 := by omega
    rw [heq] at h
    exact hcb c h

/-- `[p]+` is a `SliceP` body. -/
theorem sliceP_plusCls {t : List Char} (p : Char → Bool) :
    SliceP t p (plusCls p) :=
  sliceP_seq (sliceP_cls_of (fun _ h => h)) (sliceP_clsStar (fun _ h => h))

/-- Where a `GrpShape` pattern leaves group `k`: untouched, or set to a
span whose characters all satisfy the class. -/
theorem grpShape_spec {t : List Char} {p : Char → Bool} {k : Nat} :
    ∀ {r : RE}, GrpShape t p k r → ∀ i g x, x ∈ RE.mall t r i g →
      RGroups.get k x.2 = RGroups.get k g ∨
      ∃ s e, RGroups.get k x.2 = some (s, e) ∧
        ∀ c ∈ (t.drop s).take (e - s), p c = true := by
  intro r h
  induction h with
  | free r hf =>
    intro i g x hx
    exact .inl (mall_get_of_hasGrp_false r hf i g x hx)
  | capt body hk hs =>
    intro i g x hx
    obtain ⟨y, hy, rfl⟩ := mem_mall_grp.mp hx
    obtain ⟨-, hchars, -⟩ := hs i g y hy
    exact .inr ⟨i, y.1, get_set_same _ _ hk, hchars⟩
  | seq a b ha hb iha ihb =>
    intro i g x hx
    obtain ⟨y, hy, hxb⟩ := mem_mall_seq.mp hx
    rcases ihb y.1 y.2 x hxb with h1 | h1
    · rcases iha i g y hy with h2 | h2
      · exact .inl (h1.trans h2)
      · obtain ⟨s, e, hse, hch⟩ := h2
        exact .inr ⟨s, e, h1.trans hse, hch⟩
    · exact .inr h1

/-! ### The money normalizer returns only nonnegative values on
minus-free input -/

theorem replFuel_empty_rep_subset (pat : List Char) :
    ∀ (fuel : Nat) (l : List Char) (c : Char),
      c ∈ replFuel pat [] fuel l → c ∈ l := by
  intro fuel
  induction fuel with
  | zero => intro l c h; simpa [replFuel] using h
  | succ n ih =>
    intro l c h
    cases l with
    | nil => simpa [replFuel] using h
    | cons a rest =>
      simp only [replFuel] at h
      split at h
      · simp only [List.nil_append] at h
        exact List.mem_of_mem_drop (ih _ c h)
      · rcases List.mem_cons.mp h with rfl | h'
        · exact List.mem_cons_self _ _
        · exact List.mem_cons_of_mem _ (ih rest c h')

theorem pyReplace_empty_subset {s pat : String} {c : Char}
    (h : c ∈ (pyReplace s pat "").toList) : c ∈ s.toList := by
  have : (pyReplace s pat "").toList = replL pat.toList [] s.toList := rfl
  rw [this, replL] at h
  exact replFuel_empty_rep_subset _ _ _ _ h

theorem pyStripP_subset {p : Char → Bool} {s : String} {c : Char}
    (h : c ∈ (pyStripP p s).toList) : c ∈ s.toList := by
  have : (pyStripP p s).toList
      = ((s.toList.dropWhile p).reverse.dropWhile p).reverse := rfl
  rw [this, List.mem_reverse] at h
  have h2 := (List.dropWhile_sublist p).mem h
  rw [List.mem_reverse] at h2
  exact (List.dropWhile_sublist p).mem h2

theorem dblOvf_pos : 0 < dblOvf := by
  unfold dblOvf
  have h : (2 : ℕ) ^ 970 < 2 ^ 1024 :=
    Nat.pow_lt_pow_right (by omega) (by omega)
  have : 0 < (2 ^ 1024 - 2 ^ 970 : ℕ) := by omega
  exact_mod_cast this

theorem ofRat_nonneg {q : ℚ} (hq : 0 ≤ q) : (PyF.ofRat q).nonneg = true := by
  unfold PyF.ofRat
  split_ifs with h1 h2
  · rfl
  · exfalso
    have := dblOvf_pos
    linarith
  · simpa [PyF.nonneg] using hq

/-- On input without a minus sign, `_clean_money` returns nothing or a
nonnegative value (possibly `inf`). -/
theorem pyFloatCore_nonneg {l : List Char} {q : ℚ}
    (h : pyFloatCore l = some q) : 0 ≤ q := by
  unfold pyFloatCore at h
  split at h
  all_goals dsimp only at h
  · split_ifs at h
    obtain rfl : ((digitsVal (l.takeWhile Char.isDigit) : ℚ)) = q := by
      simpa using h
    positivity
  · split_ifs at h
    obtain rfl := (Option.some.injEq _ _).mp h
    exact Rat.mkRat_nonneg (by positivity) _
  · exact absurd h (by simp)

theorem clean_digits_subset {s : String} {c : Char}
    (hc : c ∈ _clean_digits s) : c ∈ s.toList := by
  unfold _clean_digits at hc
  have h1 := List.mem_of_mem_filter hc
  have h2 := pyReplace_empty_subset (pyReplace_empty_subset
    (pyReplace_empty_subset (pyReplace_empty_subset
      (pyReplace_empty_subset (pyReplace_empty_subset h1)))))
  exact pyStripP_subset h2

theorem clean_money_nonneg (s : String) (hs : ∀ c ∈ s.toList, c ≠ '-') :
    ∀ v, _clean_money s = some v → v.nonneg = true := by
  intro v hv
  have hs4 : ∀ c ∈ _clean_digits s, c ≠ '-' := by
    intro c hc
    exact hs c (clean_digits_subset hc)
  have hhead : ¬ (_clean_digits s).head? = some '-' := by
    cases hs4c : _clean_digits s with
    | nil => simp
    | cons a as =>
      simp only [List.head?_cons, Option.some.injEq]
      intro h
      refine hs4 '-' ?_ rfl
      rw [hs4c, ← h]
      exact List.mem_cons_self _ _
  unfold _clean_money at hv
  split_ifs at hv
  · -- a dot survived: CPython float-literal parse (exact value, inf at
    -- the overflow threshold)
    rw [Option.map_eq_some'] at hv
    obtain ⟨q, hq, rfl⟩ := hv
    unfold pyFloatLit? at hq
    rw [if_neg hhead] at hq
    exact ofRat_nonneg (pyFloatCore_nonneg hq)
  · -- no dot: CPython int conversion
    rw [Option.bind_eq_some] at hv
    obtain ⟨n, hn, hfv⟩ := hv
    unfold pyInt? at hn
    rw [if_neg hhead] at hn
    split_ifs at hn
    obtain rfl : ((digitsVal (_clean_digits s) : ℤ)) = n := by simpa using hn
    unfold pyFloatOfIntVal at hfv
    split_ifs at hfv
    obtain rfl := (Option.some.injEq _ _).mp hfv
    simp only [PyF.nonneg, decide_eq_true_eq]
    positivity

/-! ### From search results back to matches -/

theorem searchFromAux_mall {t : List Char} {r : RE} :
    ∀ (fuel i s e : Nat) (g : RGroups),
      searchFromAux t r fuel i = some (s, e, g) →
      (e, g) ∈ RE.mall t r s .empty := by
  intro fuel
  induction fuel with
  | zero => intro i s e g h; simp [searchFromAux] at h
  | succ n ih =>
    intro i s e g h
    simp only [searchFromAux] at h
    split_ifs at h
    cases hh : (RE.mall t r i .empty).head? with
    | some x =>
      rw [hh] at h
      obtain ⟨rfl, rfl⟩ : i = s ∧ x = (e, g) := by
        have := (Option.some.injEq _ _).mp h
        exact ⟨congrArg Prod.fst this, by
          have h2 := congrArg Prod.snd this
          simpa using h2⟩
      exact List.mem_of_mem_head? (hh ▸ rfl)
    | none =>
      rw [hh] at h
      exact ih (i + 1) s e g h

theorem searchFrom_mall {t : List Char} {r : RE} {i s e : Nat} {g : RGroups}
    (h : searchFrom t r i = some (s, e, g)) :
    (e, g) ∈ RE.mall t r s .empty :=
  searchFromAux_mall _ _ _ _ _ h

theorem reSearch_mall {t : List Char} {r : RE} {s e : Nat} {g : RGroups}
    (h : reSearch t r = some (s, e, g)) :
    (e, g) ∈ RE.mall t r s .empty :=
  searchFrom_mall h

theorem finditerAux_mall {t : List Char} {r : RE} :
    ∀ (fuel pos : Nat) (m : Nat × Nat × RGroups),
      m ∈ finditerAux t r fuel pos →
      (m.2.1, m.2.2) ∈ RE.mall t r m.1 .empty := by
  intro fuel
  induction fuel with
  | zero => intro pos m h; simp [finditerAux] at h
  | succ n ih =>
    intro pos m h
    simp only [finditerAux] at h
    cases hs : searchFrom t r pos with
    | none => rw [hs] at h; simp at h
    | some y =>
      obtain ⟨s, e, g⟩ := y
      rw [hs] at h
      rcases List.mem_cons.mp h with rfl | h'
      · exact searchFrom_mall hs
      · exact ih _ m h'

theorem finditer_mall {t : List Char} {r : RE} {m : Nat × Nat × RGroups}
    (h : m ∈ reFinditer t r) :
    (m.2.1, m.2.2) ∈ RE.mall t r m.1 .empty :=
  finditerAux_mall _ _ m h

/-! ### The amount groups of the concrete patterns -/

theorem get_two (g : RGroups) : RGroups.get 2 g = g.g2 := rfl

theorem get_one (g : RGroups) : RGroups.get 1 g = g.g1 := rfl

theorem grpShape_total1 (t : List Char) :
    GrpShape t amtCls1 2 (_TOTAL_PATTERNS.headD .eps) := by
  refine GrpShape.seq _ _ (GrpShape.free _ (by rfl)) ?_
  refine GrpShape.seq _ _ (GrpShape.free _ (by rfl)) ?_
  refine GrpShape.seq _ _ (GrpShape.free _ (by rfl)) ?_
  refine GrpShape.seq _ _ (GrpShape.free _ (by rfl)) ?_
  refine GrpShape.seq _ _ (GrpShape.free _ (by rfl)) ?_
  exact GrpShape.capt _ (Or.inr rfl) (sliceP_plusCls _)

theorem grpShape_total2 (t : List Char) :
    GrpShape t amtCls2 2 ((_TOTAL_PATTERNS.drop 1).headD .eps) := by
  refine GrpShape.seq _ _ (GrpShape.free _ (by rfl)) ?_
  refine GrpShape.seq _ _ (GrpShape.free _ (by rfl)) ?_
  refine GrpShape.seq _ _ (GrpShape.free _ (by rfl)) ?_
  refine GrpShape.seq _ _ (GrpShape.free _ (by rfl)) ?_
  refine GrpShape.seq _ _ (GrpShape.free _ (by rfl)) ?_
  exact GrpShape.seq _ _
    (GrpShape.capt _ (Or.inr rfl) (sliceP_plusCls _))
    (GrpShape.free _ (by rfl))

theorem grpShape_moneyAny (t : List Char) :
    GrpShape t moneyMid 1 moneyAnyPat := by
  refine GrpShape.seq _ _ (GrpShape.free _ (by rfl)) ?_
  refine GrpShape.seq _ _ (GrpShape.free _ (by rfl)) ?_
  refine GrpShape.capt _ (Or.inl rfl) ?_
  refine sliceP_seq (sliceP_cls_of ?_) (sliceP_seq (sliceP_plusCls _)
    (sliceP_cls_of ?_)) <;>
    · intro c h
      simp only [digitCh] at h
      simp [moneyMid, h]

theorem grpShape_gst1 (t : List Char) :
    GrpShape t amtCls1 2 gstPatTotalTax := by
  exact GrpShape.seq _ _ (GrpShape.free _ (by rfl))
    (GrpShape.capt _ (Or.inr rfl) (sliceP_plusCls _))

theorem grpShape_gst2 (t : List Char) :
    GrpShape t amtCls1 2 ((_GST_LINE_PATTERNS.drop 1).headD .eps) := by
  exact GrpShape.seq _ _ (GrpShape.free _ (by rfl))
    (GrpShape.capt _ (Or.inr rfl) (sliceP_plusCls _))

theorem grpShape_gst3 (t : List Char) :
    GrpShape t amtCls1 2 ((_GST_LINE_PATTERNS.drop 2).headD .eps) := by
  refine GrpShape.seq _ _ (GrpShape.free _ (by rfl)) ?_
  exact GrpShape.seq _ _ (GrpShape.free _ (by rfl))
    (GrpShape.capt _ (Or.inr rfl) (sliceP_plusCls _))

theorem amtCls1_ne_minus {c : Char} (h : amtCls1 c = true) : c ≠ '-' := by
  rintro rfl; revert h; decide

theorem amtCls2_ne_minus {c : Char} (h : amtCls2 c = true) : c ≠ '-' := by
  rintro rfl; revert h; decide

theorem moneyMid_ne_minus {c : Char} (h : moneyMid c = true) : c ≠ '-' := by
  rintro rfl; revert h; decide

/-- A match of a group-2 amount pattern cleans only to a nonnegative
value: the capture is drawn from a minus-free character class. -/
theorem cleanVal2_nonneg {up : List Char} {p : Char → Bool} {pat : RE}
    (hsh : GrpShape up p 2 pat) (hminus : ∀ c, p c = true → c ≠ '-')
    {i j : Nat} {g : RGroups} (hmm : (j, g) ∈ RE.mall up pat i .empty)
    {v : PyF} (hv : _clean_money (grp2Str up g) = some v) :
    v.nonneg = true := by
  rcases grpShape_spec hsh i .empty (j, g) hmm with hL | ⟨s, e, hse, hch⟩
  · exfalso
    have hg2 : g.g2 = none := by rw [← get_two]; exact hL
    have hg : grp2Str up g = "" := by unfold grp2Str; rw [hg2]; rfl
    rw [hg] at hv
    have hnone : _clean_money "" = none := by decide
    rw [hnone] at hv
    exact Option.noConfusion hv
  · have hg2 : g.g2 = some (s, e) := by rw [← get_two]; exact hse
    have hg : grp2Str up g = ⟨(up.drop s).take (e - s)⟩ := by
      unfold grp2Str; rw [hg2]; rfl
    rw [hg] at hv
    refine clean_money_nonneg _ ?_ v hv
    intro c hc
    exact hminus c (hch c hc)

/-- Likewise for the group-1 fallback money pattern. -/
theorem cleanVal1_nonneg {up : List Char} {p : Char → Bool} {pat : RE}
    (hsh : GrpShape up p 1 pat) (hminus : ∀ c, p c = true → c ≠ '-')
    {i j : Nat} {g : RGroups} (hmm : (j, g) ∈ RE.mall up pat i .empty)
    {v : PyF} (hv : _clean_money (grp1Str up g) = some v) :
    v.nonneg = true := by
  rcases grpShape_spec hsh i .empty (j, g) hmm with hL | ⟨s, e, hse, hch⟩
  · exfalso
    have hg1 : g.g1 = none := by rw [← get_one]; exact hL
    have hg : grp1Str up g = "" := by unfold grp1Str; rw [hg1]; rfl
    rw [hg] at hv
    have hnone : _clean_money "" = none := by decide
    rw [hnone] at hv
    exact Option.noConfusion hv
  · have hg1 : g.g1 = some (s, e) := by rw [← get_one]; exact hse
    have hg : grp1Str up g = ⟨(up.drop s).take (e - s)⟩ := by
      unfold grp1Str; rw [hg1]; rfl
    rw [hg] at hv
    refine clean_money_nonneg _ ?_ v hv
    intro c hc
    exact hminus c (hch c hc)

theorem totalKeywordVals_nonneg (up : List Char) :
    ∀ v ∈ totalKeywordVals up, v.nonneg = true := by
  intro v hv
  unfold totalKeywordVals at hv
  rw [List.mem_flatMap] at hv
  obtain ⟨pat, hpat, hv2⟩ := hv
  rw [List.mem_filterMap] at hv2
  obtain ⟨m, hm, hclean⟩ := hv2
  obtain ⟨s0, e0, g0⟩ := m
  simp only [_TOTAL_PATTERNS, List.mem_cons, List.not_mem_nil, or_false]
    at hpat
  rcases hpat with rfl | rfl
  · exact cleanVal2_nonneg (grpShape_total1 up)
      (fun c h => amtCls1_ne_minus h) (finditer_mall hm) hclean
  · exact cleanVal2_nonneg (grpShape_total2 up)
      (fun c h => amtCls2_ne_minus h) (finditer_mall hm) hclean

theorem totalFallbackVals_nonneg (up : List Char) :
    ∀ v ∈ totalFallbackVals up, v.nonneg = true := by
  intro v hv
  unfold totalFallbackVals at hv
  rw [List.mem_filterMap] at hv
  obtain ⟨str, hstr, hclean⟩ := hv
  unfold reFindall1 at hstr
  rw [List.mem_map] at hstr
  obtain ⟨m, hm, rfl⟩ := hstr
  obtain ⟨s0, e0, g0⟩ := m
  exact cleanVal1_nonneg (grpShape_moneyAny up)
    (fun c h => moneyMid_ne_minus h) (finditer_mall hm) hclean

theorem gstAmounts_nonneg (up : List Char) :
    ∀ v ∈ gstAmounts up, v.nonneg = true := by
  intro v hv
  unfold gstAmounts at hv
  rw [List.mem_flatMap] at hv
  obtain ⟨pat, hpat, hv2⟩ := hv
  rw [List.mem_filterMap] at hv2
  obtain ⟨m, hm, hclean⟩ := hv2
  obtain ⟨s0, e0, g0⟩ := m
  simp only [_GST_LINE_PATTERNS, List.mem_cons, List.not_mem_nil, or_false]
    at hpat
  rcases hpat with rfl | rfl | rfl
  · exact cleanVal2_nonneg (grpShape_gst1 up)
      (fun c h => amtCls1_ne_minus h) (finditer_mall hm) hclean
  · exact cleanVal2_nonneg (grpShape_gst2 up)
      (fun c h => amtCls1_ne_minus h) (finditer_mall hm) hclean
  · exact cleanVal2_nonneg (grpShape_gst3 up)
      (fun c h => amtCls1_ne_minus h) (finditer_mall hm) hclean

theorem PyF.add_nonneg {a b : PyF} (ha : a.nonneg = true)
    (hb : b.nonneg = true) : (a.add b).nonneg = true := by
  cases a with
  | fin qa =>
    cases b with
    | fin qb =>
      simp only [PyF.nonneg, decide_eq_true_eq] at ha hb
      simp only [PyF.add, pyRatAdd, PyF.nonneg, decide_eq_true_eq]
      refine Rat.mkRat_nonneg ?_ _
      have h1 : 0 ≤ qa.num := Rat.num_nonneg.mpr ha
      have h2 : 0 ≤ qb.num := Rat.num_nonneg.mpr hb
      have h3 : (0 : ℤ) ≤ (qa.den : ℤ) := Int.natCast_nonneg _
      have h4 : (0 : ℤ) ≤ (qb.den : ℤ) := Int.natCast_nonneg _
      exact Int.add_nonneg (Int.mul_nonneg h1 h4) (Int.mul_nonneg h2 h3)
    | pinf => rfl
    | ninf => exact absurd hb (by decide)
  | pinf => cases b <;> rfl
  | ninf => exact absurd ha (by decide)

theorem foldl_add_nonneg :
    ∀ (l : List PyF) (acc : PyF), acc.nonneg = true →
      (∀ v ∈ l, v.nonneg = true) → (l.foldl PyF.add acc).nonneg = true
  | [], acc => by intro h _; simpa using h
  | x :: xs, acc => by
    intro hacc hall
    simp only [List.foldl_cons]
    exact foldl_add_nonneg xs (acc.add x)
      (PyF.add_nonneg hacc (hall x (List.mem_cons_self _ _)))
      (fun v hv => hall v (List.mem_cons_of_mem _ hv))

theorem pySum_nonneg (l : List PyF) (h : ∀ v ∈ l, v.nonneg = true) :
    (pySum l).nonneg = true :=
  foldl_add_nonneg l (.fin 0) (by decide) h

/-! ### Dates produced by the pipeline are valid calendar dates -/

theorem mkDate?_valid {y m d : Nat} {dt : PDate}
    (h : mkDate? y m d = some dt) : validYMD dt.y dt.m dt.d = true := by
  unfold mkDate? at h
  split_ifs at h with hval
  obtain rfl : (⟨y, m, d⟩ : PDate) = dt := (Option.some.injEq _ _).mp h
  exact hval

theorem orElse_mkDate?_valid {y1 m1 d1 y2 m2 d2 : Nat} {dt : PDate}
    (h : (mkDate? y1 m1 d1).orElse (fun _ => mkDate? y2 m2 d2) = some dt) :
    validYMD dt.y dt.m dt.d = true := by
  rcases h1 : mkDate? y1 m1 d1 with _ | dt1
  · rw [h1] at h
    simp only [Option.orElse] at h
    exact mkDate?_valid h
  · rw [h1] at h
    simp only [Option.orElse] at h
    obtain rfl := (Option.some.injEq _ _).mp h
    exact mkDate?_valid h1

theorem dtparse_valid {s : String} {dt : PDate} (h : dtparse s = some dt) :
    validYMD dt.y dt.m dt.d = true := by
  unfold dtparse at h
  split at h
  · split_ifs at h <;> exact orElse_mkDate?_valid h
  · rw [Option.bind_eq_some] at h
    obtain ⟨mo, -, h2⟩ := h
    exact mkDate?_valid h2
  · rw [Option.bind_eq_some] at h
    obtain ⟨mo, -, h2⟩ := h
    exact mkDate?_valid h2
  · exact absurd h (by simp)

theorem dateCandidates_valid {up : List Char} {dt : PDate}
    (h : dt ∈ dateCandidates up) : validYMD dt.y dt.m dt.d = true := by
  unfold dateCandidates at h
  rw [List.mem_flatMap] at h
  obtain ⟨pat, -, h2⟩ := h
  rw [List.mem_filterMap] at h2
  obtain ⟨s, -, h3⟩ := h2
  exact dtparse_valid h3

/-! ### Claim C5 — output invariants -/

/-- C5 counterexample: on a document whose labeled amount is a 312-digit
run with a decimal point, the total is `inf` (CPython's `float` of an
overflowing decimal string), hence neither null nor a finite value — the
claim's "finite, even for very long digit runs" fails. -/
theorem C5_total_finiteness_refuted :
    ¬ ((extract_fields c5advText).total = none ∨
       ∃ q : ℚ, (extract_fields c5advText).total = some (PyF.fin q)) := by
  have h : (extract_fields c5advText).total = some PyF.pinf := by decide
  rintro (h0 | ⟨q, hq⟩)
  · rw [h] at h0
    exact Option.noConfusion h0
  · rw [h] at hq
    exact PyF.noConfusion ((Option.some.injEq _ _).mp hq)

/-- C5 amended: for every input, `total` and `gst`, when non-null, are
nonnegative — finite except that an amount whose digits denote a value at
or beyond the IEEE-double overflow threshold and that carries a decimal
point becomes `+inf` (never negative, never NaN) — and `date`, when
non-null, is the ISO form of a valid calendar date with no time
component. -/
theorem C5_fields_nonneg_and_dates_valid (raw : String) :
    (∀ v, (extract_fields raw).total = some v → v.nonneg = true) ∧
    (∀ v, (extract_fields raw).gst = some v → v.nonneg = true) ∧
    (∀ s, (extract_fields raw).date = some s →
       ∃ dt : PDate, validYMD dt.y dt.m dt.d = true ∧ s = dt.iso) := by
  refine ⟨?_, ?_, ?_⟩
  · intro v hv
    rw [extract_fields_total] at hv
    rcases hk : totalKeywordVals (upOf raw) with _ | ⟨kv, kvs⟩
    · rcases hf : totalFallbackVals (upOf raw) with _ | ⟨fv, fvs⟩
      · exfalso
        have hc : totalCandidates (upOf raw) = [] := by
          simp [totalCandidates, hk, hf]
        unfold totalField at hv
        rw [hc] at hv
        exact Option.noConfusion hv
      · rw [totalField_eq_fb hk hf] at hv
        obtain rfl := (Option.some.injEq _ _).mp hv
        refine totalFallbackVals_nonneg (upOf raw) _ ?_
        rw [hf]
        exact (pyMaxKey_uniform Tag.anyNum fvs fv).1
    · rw [totalField_eq_kw hk] at hv
      obtain rfl := (Option.some.injEq _ _).mp hv
      refine totalKeywordVals_nonneg (upOf raw) _ ?_
      rw [hk]
      exact (pyMaxKey_uniform Tag.keyword kvs kv).1
  · intro v hv
    rw [extract_fields_gst] at hv
    unfold gstField at hv
    rcases hg : gstAmounts (upOf raw) with _ | ⟨gv, gvs⟩
    · rw [hg] at hv
      unfold gstFallbackVal at hv
      cases hsr : reSearch (upOf raw) gstPatTotalTax with
      | none =>
        rw [hsr] at hv
        exact Option.noConfusion hv
      | some m =>
        rw [hsr] at hv
        obtain ⟨s0, e0, g0⟩ := m
        exact cleanVal2_nonneg (grpShape_gst1 (upOf raw))
          (fun c h => amtCls1_ne_minus h) (reSearch_mall hsr) hv
    · rw [hg] at hv
      obtain rfl := (Option.some.injEq _ _).mp hv
      refine pySum_nonneg _ ?_
      intro w hw
      exact gstAmounts_nonneg (upOf raw) w (hg ▸ hw)
  · intro s hsome
    rw [extract_fields_date] at hsome
    unfold dateField at hsome
    cases hs : sortD (dateCandidates (upOf raw)) with
    | nil =>
      rw [hs] at hsome
      exact absurd hsome (by simp)
    | cons d rest =>
      rw [hs] at hsome
      obtain rfl : d.iso = s := by simpa using hsome
      obtain ⟨hmem, -⟩ := sortD_head_min _ d rest hs
      exact ⟨d, dateCandidates_valid hmem, rfl⟩

/-- C5 witness: the amended theorem instantiated on concrete documents —
the chosen total 500 is nonnegative and the extracted date 2025-07-23
comes from a valid calendar date. -/
theorem C5_fields_nonneg_and_dates_valid_witness :
    PyF.nonneg (PyF.fin 500) = true ∧
    ∃ dt : PDate, validYMD dt.y dt.m dt.d = true ∧ "2025-07-23" = dt.iso :=
  ⟨(C5_fields_nonneg_and_dates_valid c1text).1 (PyF.fin 500) (by decide),
   (C5_fields_nonneg_and_dates_valid c4text).2.2 "2025-07-23" (by decide)⟩

/-! ### Claim C10 — the bare-invoice fallback pattern is redundant -/

theorem searchFromAux_le {t : List Char} {r : RE} :
    ∀ (fuel i s e : Nat) (g : RGroups),
      searchFromAux t r fuel i = some (s, e, g) → s ≤ t.length := by
  intro fuel
  induction fuel with
  | zero => intro i s e g h; simp [searchFromAux] at h
  | succ n ih =>
    intro i s e g h
    simp only [searchFromAux] at h
    split_ifs at h with hle
    cases hh : (RE.mall t r i .empty).head? with
    | some x =>
      rw [hh] at h
      obtain rfl : i = s := congrArg Prod.fst ((Option.some.injEq _ _).mp h)
      exact hle
    | none =>
      rw [hh] at h
      exact ih (i + 1) s e g h

/-- A failed scan means no position in range matches. -/
theorem searchFromAux_none_mall {t : List Char} {r : RE} :
    ∀ (fuel i : Nat), searchFromAux t r fuel i = none →
      ∀ j, i ≤ j → j < i + fuel → j ≤ t.length →
        RE.mall t r j .empty = [] := by
  intro fuel
  induction fuel with
  | zero => intro i _ j h1 h2 _; omega
  | succ n ih =>
    intro i hnone j h1 h2 h3
    simp only [searchFromAux] at hnone
    by_cases hij : i = j
    · subst hij
      rw [if_pos h3] at hnone
      cases hh : (RE.mall t r i .empty).head? with
      | some x => rw [hh] at hnone; exact Option.noConfusion hnone
      | none => exact List.head?_eq_none_iff.mp hh
    · have hlt : i < j := by omega
      have hile : i ≤ t.length := by omega
      rw [if_pos hile] at hnone
      cases hh : (RE.mall t r i .empty).head? with
      | some x => rw [hh] at hnone; exact Option.noConfusion hnone
      | none =>
        rw [hh] at hnone
        exact ih (i + 1) hnone j (by omega) (by omega) h3

theorem reSearch_none_mall {t : List Char} {r : RE}
    (h : reSearch t r = none) :
    ∀ j, j ≤ t.length → RE.mall t r j .empty = [] := by
  intro j hj
  exact searchFromAux_none_mall _ 0 h j (Nat.zero_le _) (by omega) hj

/-- Transfer of a match of the fallback pattern to the first pattern:
every label element of `invPat1` is optional, so wherever `invPat4`
matches, `invPat1` matches too (with the same spaces, separators, and at
least one token character). -/
theorem mall_invPat1_of_invPat4 (t : List Char) (i : Nat)
    (h : RE.mall t invPat4 i .empty ≠ []) :
    RE.mall t invPat1 i .empty ≠ [] := by
  obtain ⟨x, hx⟩ := List.exists_mem_of_ne_nil _ h
  have e4 : invPat4 = .seq (rstr "INVOICE") (.seq (.clsStar pySpace)
      (.seq (.clsStar sepCls) (.grp 1 (repCls tokCls 3 30)))) := rfl
  rw [e4] at hx
  obtain ⟨y1, hy1, h1⟩ := mem_mall_seq.mp hx
  obtain ⟨hpre, rfl⟩ := mem_mall_str.mp hy1
  dsimp only at h1
  obtain ⟨y2, hy2, h2⟩ := mem_mall_seq.mp h1
  obtain ⟨k2, hk2, rfl⟩ := mem_mall_clsStar.mp hy2
  dsimp only at h2
  obtain ⟨y3, hy3, h3⟩ := mem_mall_seq.mp h2
  obtain ⟨k3, hk3, rfl⟩ := mem_mall_clsStar.mp hy3
  dsimp only at h3
  obtain ⟨y4, hy4, -⟩ := mem_mall_grp.mp h3
  have e53 : repCls tokCls 3 30
      = .seq (.seq (.cls tokCls) (.seq (.cls tokCls)
          (.seq (.cls tokCls) .eps))) (repClsAtMost tokCls 27) := rfl
  rw [e53] at hy4
  obtain ⟨y5, hy5, -⟩ := mem_mall_seq.mp hy4
  obtain ⟨y6, hy6, -⟩ := mem_mall_seq.mp hy5
  obtain ⟨c, hget, htok, rfl⟩ := mem_mall_cls.mp hy6
  -- build the matching run of `invPat1` at the same position, with the
  -- optional label empty and one captured token character
  have mTok : ((i + "INVOICE".toList.length + k2 + k3 + 1,
      (RGroups.empty : RGroups)) : Nat × RGroups)
      ∈ RE.mall t (plusCls tokCls)
        (i + "INVOICE".toList.length + k2 + k3) .empty :=
    mem_mall_seq.mpr ⟨(i + "INVOICE".toList.length + k2 + k3 + 1, .empty),
      mem_mall_cls.mpr ⟨c, hget, htok, rfl⟩,
      mem_mall_clsStar.mpr ⟨0, Nat.zero_le _, rfl⟩⟩
  have mGrp : ((i + "INVOICE".toList.length + k2 + k3 + 1,
      (RGroups.empty : RGroups).set 1
        (i + "INVOICE".toList.length + k2 + k3,
         i + "INVOICE".toList.length + k2 + k3 + 1)) : Nat × RGroups)
      ∈ RE.mall t (.grp 1 (plusCls tokCls))
        (i + "INVOICE".toList.length + k2 + k3) .empty :=
    mem_mall_grp.mpr ⟨_, mTok, rfl⟩
  have m1 : ((i + "INVOICE".toList.length + k2 + k3 + 1,
      (RGroups.empty : RGroups).set 1
        (i + "INVOICE".toList.length + k2 + k3,
         i + "INVOICE".toList.length + k2 + k3 + 1)) : Nat × RGroups)
      ∈ RE.mall t (.seq (.clsStar sepCls) (.grp 1 (plusCls tokCls)))
        (i + "INVOICE".toList.length + k2) .empty :=
    mem_mall_seq.mpr ⟨(i + "INVOICE".toList.length + k2 + k3, .empty),
      mem_mall_clsStar.mpr ⟨k3, hk3, rfl⟩, mGrp⟩
  have m2 : ((i + "INVOICE".toList.length + k2 + k3 + 1,
      (RGroups.empty : RGroups).set 1
        (i + "INVOICE".toList.length + k2 + k3,
         i + "INVOICE".toList.length + k2 + k3 + 1)) : Nat × RGroups)
      ∈ RE.mall t (.seq (.clsStar pySpace)
          (.seq (.clsStar sepCls) (.grp 1 (plusCls tokCls))))
        (i + "INVOICE".toList.length + k2) .empty :=
    mem_mall_seq.mpr ⟨(i + "INVOICE".toList.length + k2 + 0, .empty),
      mem_mall_clsStar.mpr ⟨0, Nat.zero_le _, rfl⟩, m1⟩
  have m3 : ((i + "INVOICE".toList.length + k2 + k3 + 1,
      (RGroups.empty : RGroups).set 1
        (i + "INVOICE".toList.length + k2 + k3,
         i + "INVOICE".toList.length + k2 + k3 + 1)) : Nat × RGroups)
      ∈ RE.mall t (.seq (.opt (alts [rstr "NO", rstr "NUMBER", rstr "#",
          rstr ":"])) (.seq (.clsStar pySpace)
          (.seq (.clsStar sepCls) (.grp 1 (plusCls tokCls)))))
        (i + "INVOICE".toList.length + k2) .empty :=
    mem_mall_seq.mpr ⟨(i + "INVOICE".toList.length + k2, .empty),
      mem_mall_opt.mpr (Or.inr rfl), m2⟩
  have m4 : ((i + "INVOICE".toList.length + k2 + k3 + 1,
      (RGroups.empty : RGroups).set 1
        (i + "INVOICE".toList.length + k2 + k3,
         i + "INVOICE".toList.length + k2 + k3 + 1)) : Nat × RGroups)
      ∈ RE.mall t (.seq (.clsStar pySpace)
          (.seq (.opt (alts [rstr "NO", rstr "NUMBER", rstr "#", rstr ":"]))
            (.seq (.clsStar pySpace)
              (.seq (.clsStar sepCls) (.grp 1 (plusCls tokCls))))))
        (i + "INVOICE".toList.length) .empty :=
    mem_mall_seq.mpr ⟨(i + "INVOICE".toList.length + k2, .empty),
      mem_mall_clsStar.mpr ⟨k2, hk2, rfl⟩, m3⟩
  have m5 : ((i + "INVOICE".toList.length + k2 + k3 + 1,
      (RGroups.empty : RGroups).set 1
        (i + "INVOICE".toList.length + k2 + k3,
         i + "INVOICE".toList.length + k2 + k3 + 1)) : Nat × RGroups)
      ∈ RE.mall t invPat1 i .empty := by
    have e1 : invPat1 = .seq (rstr "INVOICE") (.seq (.clsStar pySpace)
        (.seq (.opt (alts [rstr "NO", rstr "NUMBER", rstr "#", rstr ":"]))
          (.seq (.clsStar pySpace)
            (.seq (.clsStar sepCls) (.grp 1 (plusCls tokCls)))))) := rfl
    rw [e1]
    exact mem_mall_seq.mpr ⟨(i + "INVOICE".toList.length, .empty),
      mem_mall_str.mpr ⟨hpre, rfl⟩, m4⟩
  exact List.ne_nil_of_mem m5

theorem reSearch_invPat4_none {t : List Char}
    (h1 : reSearch t invPat1 = none) : reSearch t invPat4 = none := by
  cases h4 : reSearch t invPat4 with
  | none => rfl
  | some m =>
    exfalso
    obtain ⟨s, e, g⟩ := m
    have hmem := reSearch_mall h4
    have hle : s ≤ t.length := searchFromAux_le _ _ _ _ _ h4
    have hne : RE.mall t invPat4 s .empty ≠ [] := List.ne_nil_of_mem hmem
    have := mall_invPat1_of_invPat4 t s hne
    exact this (reSearch_none_mall h1 s hle)

/-- C10: the bare-`invoice` fallback pattern never determines the
result — wherever it matches, the first pattern already matches, so the
priority loop never reaches it; `extract_fields` equals the same function
with the fallback removed from the pattern list. -/
theorem C10_invoice_fallback_redundant (raw : String) :
    extract_fields raw = extract_fields_nofb raw := by
  have hdrop : _INVOICE_PATTERNS.dropLast = [invPat1, invPat2, invPat3] := rfl
  have key : invoiceNumberWith _INVOICE_PATTERNS (upOf raw)
      = invoiceNumberWith _INVOICE_PATTERNS.dropLast (upOf raw) := by
    rw [hdrop]
    show invoiceNumberWith [invPat1, invPat2, invPat3, invPat4] (upOf raw)
      = invoiceNumberWith [invPat1, invPat2, invPat3] (upOf raw)
    simp only [invoiceNumberWith]
    cases h1 : reSearch (upOf raw) invPat1 with
    | some m => rfl
    | none =>
      cases h2 : reSearch (upOf raw) invPat2 with
      | some m => rfl
      | none =>
        cases h3 : reSearch (upOf raw) invPat3 with
        | some m => rfl
        | none =>
          rw [reSearch_invPat4_none h1]
  show ({ supplier := supplierField (linesOf raw),
          invoice_number := invoiceNumberWith _INVOICE_PATTERNS (upOf raw),
          date := dateField (upOf raw),
          total := totalField (upOf raw),
          gst := gstField (upOf raw) } : Extracted) = _
  rw [key]
  rfl

end InvoiceMVP
